import Mathlib

/-!
Shallow embedding of the timelines-mcp repository layer
(src/timelines_mcp/domain/repository.py, domain/models.py) together with the
storage-adapter semantics it relies on (core/adapters/sqlite.py: equality
filters over insertion-ordered tables).

Modelling conventions:
* UUIDs are natural numbers; fresh ids are drawn from a counter in the
  storage state (uuid4 generation, assumed collision-free).
* Timezone-aware datetimes are natural numbers; Python datetime.min is 0
  (Python datetimes are bounded below, and only comparisons are used).
* Decimal values are rationals (Decimal comparison is exact).
* Python dicts are insertion-ordered association lists with unique keys,
  maintained by dictSet (replace in place or append at the end).
* Python truthiness is modelled where the source tests a value with
  bare "if x:": None, empty list, empty string, and zero are falsy;
  datetime and enum values are always truthy; pydantic models are
  always truthy.
-/

namespace Timelines

abbrev UUID := Nat
abbrev Time := Nat

/-- Python datetime.min.replace(tzinfo=UTC): the minimum representable
instant, the bottom of the Time order. -/
def datetimeMin : Time := 0

-- === Python dict operations (insertion-ordered association lists) ===

/-- Python d[k] = v: replace the value in place if the key is present,
otherwise append the new pair at the end. -/
def dictSet {K V : Type} [DecidableEq K] : List (K × V) → K → V → List (K × V)
  | [], k, v => [(k, v)]
  | (k', v') :: rest, k, v =>
      if k' = k then (k, v) :: rest else (k', v') :: dictSet rest k v

/-- Python d.get(k): first binding of the key, if any. -/
def dictGet {K V : Type} [DecidableEq K] : List (K × V) → K → Option V
  | [], _ => none
  | (k', v') :: rest, k => if k' = k then some v' else dictGet rest k

/-- Python d.update(other): write every pair of other into d, in order
(last write wins per key). -/
def dictUpdate {K V : Type} [DecidableEq K]
    (d : List (K × V)) (other : List (K × V)) : List (K × V) :=
  other.foldl (fun acc p => dictSet acc p.1 p.2) d

-- === Domain model (domain/models.py) ===

/-- PropertyValue: tagged union over string, decimal number, boolean,
datetime (one optional field per variant, as in the source). -/
structure PropertyValue where
  string_val : Option String := none
  number_val : Option ℚ := none
  boolean_val : Option Bool := none
  datetime_val : Option Time := none
deriving DecidableEq, Repr

/-- EntityProperty: key-value pair for properties. -/
structure EntityProperty where
  key : String
  value : PropertyValue
deriving DecidableEq, Repr

/-- EventType enum (15 semantic kinds). -/
inductive EventType where
  | observation | measurement | declaration
  | transition | creation | destruction | modification
  | interaction | association | dissociation
  | milestone | boundary | reference
  | annotation | revision
deriving DecidableEq, Repr

/-- RelationType enum. -/
inductive RelationType where
  | causal | temporal | hierarchical | referential
  | contradictory | reinforcing | conditional | perspective
deriving DecidableEq, Repr

/-- TimelineStatus enum. -/
inductive TimelineStatus where
  | canonical | hypothetical | draft | subjective | archived
deriving DecidableEq, Repr

/-- SourceType enum for polymorphic relationship endpoints. -/
inductive SourceType where
  | event | entity | timeline
deriving DecidableEq, Repr

/-- StateDelta: global property changes plus per-entity property changes. -/
structure StateDelta where
  global_changes : List (String × EntityProperty) := []
  entity_changes : List (UUID × List (String × EntityProperty)) := []
deriving DecidableEq, Repr

/-- WorldState: accumulated global and per-entity properties. -/
structure WorldState where
  global_properties : List (String × EntityProperty) := []
  entity_states : List (UUID × List (String × EntityProperty)) := []
deriving DecidableEq, Repr

/-- Timeline record. -/
structure Timeline where
  id : UUID
  project_id : UUID
  user_id : UUID
  name : String
  description : Option String := none
  parent_timeline_id : Option UUID := none
  status : TimelineStatus := .canonical
deriving DecidableEq, Repr

/-- Event record. -/
structure Event where
  id : UUID
  timeline_id : UUID
  timestamp : Time
  end_timestamp : Option Time := none
  event_type : EventType
  description : String
  importance_score : ℚ := 1/2
  detail_level : Nat := 1
  state_delta : StateDelta := {}
  metadata : List (String × EntityProperty) := []
deriving DecidableEq, Repr

/-- Relationship record (polymorphic edge). -/
structure Relationship where
  id : UUID
  source_id : UUID
  source_type : SourceType
  target_id : UUID
  target_type : SourceType
  relation_type : RelationType
  strength : ℚ := 1
  valid_from : Option Time := none
  valid_until : Option Time := none
deriving DecidableEq, Repr

/-- StateSnapshot record: cached WorldState at a timeline instant. -/
structure StateSnapshot where
  id : UUID
  timeline_id : UUID
  timestamp : Time
  state : WorldState := {}
deriving DecidableEq, Repr

/-- CausalPath: chain of causally related events. -/
structure CausalPath where
  events : List Event := []
deriving DecidableEq, Repr

-- === Storage adapter state and CRUD (core/adapters/sqlite.py) ===

/-- Storage state: the persisted tables, in insertion order, plus the
fresh-id counter standing in for uuid4 generation. -/
structure Storage where
  timelines : List Timeline := []
  events : List Event := []
  relationships : List Relationship := []
  snapshots : List StateSnapshot := []
  links : List (UUID × UUID × String) := []
  nextId : UUID := 0
deriving DecidableEq, Repr

/-- uuid4(): draw a fresh id from the counter. -/
def freshId (st : Storage) : UUID × Storage :=
  (st.nextId, { st with nextId := st.nextId + 1 })

/-- SELECT * FROM timelines WHERE id = ?. -/
def get_timeline_by_id (st : Storage) (timeline_id : UUID) : Option Timeline :=
  st.timelines.find? (fun t => t.id = timeline_id)

/-- SELECT * FROM events WHERE id = ?. -/
def get_event_by_id (st : Storage) (event_id : UUID) : Option Event :=
  st.events.find? (fun e => e.id = event_id)

/-- SELECT * FROM events WHERE timeline_id = ?. -/
def get_events_by_timeline (st : Storage) (timeline_id : UUID) : List Event :=
  st.events.filter (fun e => e.timeline_id = timeline_id)

/-- SELECT * FROM state_snapshots WHERE timeline_id = ?. -/
def get_snapshots_by_timeline (st : Storage) (timeline_id : UUID) : List StateSnapshot :=
  st.snapshots.filter (fun s => s.timeline_id = timeline_id)

/-- SELECT * FROM relationships WHERE source_id = ? AND source_type = ?. -/
def get_relationships_by_source (st : Storage) (source_id : UUID)
    (source_type : SourceType) : List Relationship :=
  st.relationships.filter (fun r => r.source_id = source_id ∧ r.source_type = source_type)

/-- SELECT * FROM relationships WHERE target_id = ? AND target_type = ?. -/
def get_relationships_by_target (st : Storage) (target_id : UUID)
    (target_type : SourceType) : List Relationship :=
  st.relationships.filter (fun r => r.target_id = target_id ∧ r.target_type = target_type)

/-- INSERT INTO timelines. -/
def insert_timeline (st : Storage) (t : Timeline) : Storage :=
  { st with timelines := st.timelines ++ [t] }

/-- INSERT INTO events. -/
def insert_event (st : Storage) (e : Event) : Storage :=
  { st with events := st.events ++ [e] }

/-- UPDATE events SET ... WHERE id = ?. -/
def update_event (st : Storage) (e : Event) : Storage :=
  { st with events := st.events.map (fun x => if x.id = e.id then e else x) }

/-- Python str.lower: lowercase character by character (the roles in play
are ASCII, where Python and the Unicode-simple mapping agree). -/
def pyLower (s : String) : String := ⟨s.data.map Char.toLower⟩

/-- INSERT INTO event_entity_links: the sqlite adapter lowercases the role
at insertion time (role.lower()). -/
def insert_event_entity_link (st : Storage) (event_id entity_id : UUID)
    (role : String) : Storage :=
  { st with links := st.links ++ [(event_id, entity_id, pyLower role)] }

/-- SELECT event_id, role FROM event_entity_links WHERE entity_id = ?. -/
def get_event_entity_links_by_entity (st : Storage) (entity_id : UUID) :
    List (UUID × String) :=
  (st.links.filter (fun l => l.2.1 = entity_id)).map (fun l => (l.1, l.2.2))

-- === Pydantic construction-time validation (domain/models.py) ===

/-- Timeline(...) constructor: pydantic validates name length in [1, 255]. -/
def mkTimeline (id project_id user_id : UUID) (name : String)
    (description : Option String) (parent_timeline_id : Option UUID)
    (status : TimelineStatus) : Except String Timeline :=
  if name.length < 1 ∨ 255 < name.length then
    .error "name length out of range"
  else
    .ok { id, project_id, user_id, name, description, parent_timeline_id, status }

/-- Event(...) constructor: pydantic validates description nonempty,
importance_score in [0, 1], detail_level at most 2 (it is a Nat here, so
the lower bound 0 is structural), and the end_timestamp field validator:
end_timestamp, when present, must be strictly after timestamp. -/
def mkEvent (id timeline_id : UUID) (timestamp : Time) (end_timestamp : Option Time)
    (event_type : EventType) (description : String) (importance_score : ℚ)
    (detail_level : Nat) (state_delta : StateDelta) : Except String Event :=
  if description.length < 1 then .error "description must be nonempty"
  else if importance_score < 0 ∨ 1 < importance_score then
    .error "importance_score out of range"
  else if 2 < detail_level then .error "detail_level out of range"
  else
    match end_timestamp with
    | some e =>
        if e ≤ timestamp then .error "end_timestamp must be after timestamp"
        else .ok { id, timeline_id, timestamp, end_timestamp, event_type,
                   description, importance_score, detail_level, state_delta }
    | none => .ok { id, timeline_id, timestamp, end_timestamp, event_type,
                    description, importance_score, detail_level, state_delta }

/-- Relationship(...) constructor: pydantic validates strength in [0, 1]
and the valid_until field validator: when both bounds are present,
valid_until must be strictly after valid_from. -/
def mkRelationship (id source_id : UUID) (source_type : SourceType)
    (target_id : UUID) (target_type : SourceType) (relation_type : RelationType)
    (strength : ℚ) (valid_from valid_until : Option Time) :
    Except String Relationship :=
  if strength < 0 ∨ 1 < strength then .error "strength out of range"
  else
    match valid_from, valid_until with
    | some f, some u =>
        if u ≤ f then .error "valid_until must be after valid_from"
        else .ok { id, source_id, source_type, target_id, target_type,
                   relation_type, strength, valid_from, valid_until }
    | _, _ => .ok { id, source_id, source_type, target_id, target_type,
                    relation_type, strength, valid_from, valid_until }

-- === Repository operations (domain/repository.py) ===

/-- Timestamp order on events used by sorted(events, key=timestamp). -/
def eventLE (a b : Event) : Prop := a.timestamp ≤ b.timestamp

instance : DecidableRel eventLE := fun a b => Nat.decLe a.timestamp b.timestamp

instance : IsTotal Event eventLE := ⟨fun a b => Nat.le_total a.timestamp b.timestamp⟩

instance : IsTrans Event eventLE := ⟨fun _ _ _ h h' => Nat.le_trans h h'⟩

/-- Python sorted(events, key=lambda e: e.timestamp): a stable ascending
sort, which is what insertion sort computes. -/
def pySortByTimestamp (l : List Event) : List Event := List.insertionSort eventLE l

/-- Python events[:k] for an int k: nonnegative k takes from the front,
negative k drops the last -k elements. -/
def pyTake {α : Type} (k : Int) (l : List α) : List α :=
  if 0 ≤ k then l.take k.toNat else l.take ((l.length : Int) + k).toNat

/-- query_events: load the timeline events, filter in order (start, end,
event_types, min_importance, detail_level), sort ascending by timestamp,
then apply the limit. Bare truthiness tests in the source: start and end
are datetimes (truthy whenever supplied), event_types is a list (an empty
list skips the filter), min_importance is a Decimal (zero skips the
filter), detail_level is compared against None explicitly, and limit is
an int (zero skips the truncation). -/
def query_events (st : Storage) (timeline_id : UUID)
    (start : Option Time) (endT : Option Time)
    (event_types : Option (List EventType)) (min_importance : ℚ)
    (detail_level : Option Nat) (limit : Option Int) : List Event :=
  let events := get_events_by_timeline st timeline_id
  let events := match start with
    | some s => events.filter (fun e => s ≤ e.timestamp)
    | none => events
  let events := match endT with
    | some t => events.filter (fun e => e.timestamp ≤ t)
    | none => events
  let events := match event_types with
    | some tys =>
        if tys.isEmpty then events else events.filter (fun e => e.event_type ∈ tys)
    | none => events
  let events := if min_importance ≠ 0 then
      events.filter (fun e => min_importance ≤ e.importance_score)
    else events
  let events := match detail_level with
    | some d => events.filter (fun e => e.detail_level = d)
    | none => events
  let events := pySortByTimestamp events
  match limit with
  | some k => if k ≠ 0 then pyTake k events else events
  | none => events

/-- Apply one entity_changes item: skipped unless the entity passes the
entity_ids filter (None means apply to all); a missing entity gets an
empty dict first, then the changes are merged in. -/
def applyEntityChange (entity_ids : Option (List UUID)) (state : WorldState)
    (item : UUID × List (String × EntityProperty)) : WorldState :=
  let keep := match entity_ids with
    | none => true
    | some ids => item.1 ∈ ids
  if keep then
    let cur := (dictGet state.entity_states item.1).getD []
    { state with entity_states := dictSet state.entity_states item.1 (dictUpdate cur item.2) }
  else state

/-- Apply one event state_delta to the running state (the bare truthiness
test on event.state_delta in the source is always true for a pydantic
model instance): merge global_changes into global_properties, then fold
the entity_changes items in order. -/
def applyDelta (entity_ids : Option (List UUID)) (state : WorldState)
    (event : Event) : WorldState :=
  let state := { state with
    global_properties := dictUpdate state.global_properties event.state_delta.global_changes }
  event.state_delta.entity_changes.foldl (applyEntityChange entity_ids) state

/-- Python max(snapshots, key=lambda s: s.timestamp): the first snapshot
with the maximal timestamp (max replaces only on strict increase). -/
def pyMaxByTimestamp : List StateSnapshot → Option StateSnapshot
  | [] => none
  | x :: xs => some (xs.foldl (fun best s => if best.timestamp < s.timestamp then s else best) x)

/-- reconstruct_state_at: pick the nearest snapshot at or before the
target (empty WorldState at datetime.min if none), replay the events in
the window through query_events, and fold the deltas in. -/
def reconstruct_state_at (st : Storage) (timeline_id : UUID) (timestamp : Time)
    (entity_ids : Option (List UUID)) : WorldState :=
  let snapshots := (get_snapshots_by_timeline st timeline_id).filter
    (fun s => s.timestamp ≤ timestamp)
  let startPair : WorldState × Time := match pyMaxByTimestamp snapshots with
    | some nearest => (nearest.state, nearest.timestamp)
    | none => ({}, datetimeMin)
  let events := query_events st timeline_id (some startPair.2) (some timestamp)
    none 0 none none
  events.foldl (applyDelta entity_ids) startPair.1

/-- link_event_entity: direct pass-through to the storage insert (which
lowercases the role). -/
def link_event_entity (st : Storage) (event_id entity_id : UUID)
    (role : String) : Storage :=
  insert_event_entity_link st event_id entity_id role

/-- get_entity_events: resolve the link table rows for the entity,
optionally filter to one role (a bare truthiness test, so an empty role
string skips the filter), restrict the timeline events to the linked
event ids, apply the optional time window, and sort ascending. -/
def get_entity_events (st : Storage) (entity_id timeline_id : UUID)
    (start endT : Option Time) (role : Option String) : List Event :=
  let links := get_event_entity_links_by_entity st entity_id
  let links : List (UUID × String) := match role with
    | some ro => if ro ≠ "" then links.filter (fun l => l.2 = ro) else links
    | none => links
  let event_ids := links.map (fun l => l.1)
  let events := (get_events_by_timeline st timeline_id).filter
    (fun e => e.id ∈ event_ids)
  let events := match start with
    | some s => events.filter (fun e => s ≤ e.timestamp)
    | none => events
  let events := match endT with
    | some t => events.filter (fun e => e.timestamp ≤ t)
    | none => events
  pySortByTimestamp events

/-- get_events_with_entities: per-entity event-id sets via
get_entity_events; match_all takes their intersection (empty input list
gives the empty set), otherwise their union; the timeline events are
filtered to the resulting id set and sorted ascending. -/
def get_events_with_entities (st : Storage) (entity_ids : List UUID)
    (timeline_id : UUID) (match_all : Bool) (start endT : Option Time) :
    List Event :=
  if match_all then
    let event_sets := entity_ids.map
      (fun ent => (get_entity_events st ent timeline_id start endT none).map (fun e => e.id))
    let common_ids : List UUID := match event_sets with
      | [] => []
      | s :: rest => rest.foldl (fun acc s2 => acc.filter (fun i => i ∈ s2)) s
    let events := get_events_by_timeline st timeline_id
    pySortByTimestamp (events.filter (fun e => e.id ∈ common_ids))
  else
    let all_event_ids := (entity_ids.map
      (fun ent => (get_entity_events st ent timeline_id start endT none).map (fun e => e.id))).flatten
    let events := get_events_by_timeline st timeline_id
    pySortByTimestamp (events.filter (fun e => e.id ∈ all_event_ids))

/-- Temporal validity of an edge at an instant: (valid_from is None or
valid_from at most t) and (valid_until is None or valid_until at least t). -/
def validAt (t : Time) (r : Relationship) : Bool :=
  (match r.valid_from with | none => true | some f => decide (f ≤ t))
  && (match r.valid_until with | none => true | some u => decide (t ≤ u))

/-- get_relationships: gather edges with the argument as source and/or
target, always querying with SourceType.EVENT, then filter by
relation_type (enum values are truthy, so any supplied value filters) and
by temporal validity at at_time. -/
def get_relationships (st : Storage) (entity_id : UUID)
    (relation_type : Option RelationType) (at_time : Option Time)
    (as_source as_target : Bool) : List Relationship :=
  let relationships : List Relationship := []
  let relationships := if as_source then
      relationships ++ get_relationships_by_source st entity_id .event
    else relationships
  let relationships := if as_target then
      relationships ++ get_relationships_by_target st entity_id .event
    else relationships
  let relationships := match relation_type with
    | some rt => relationships.filter (fun r => r.relation_type = rt)
    | none => relationships
  match at_time with
  | some t => relationships.filter (validAt t)
  | none => relationships

/-- One step target of a causal edge in the traversal direction. -/
def relNext (forward : Bool) (r : Relationship) : UUID :=
  if forward then r.target_id else r.source_id

/-- The recursive body of trace_causality. The source recursion carries a
depth that grows by one per level and stops when depth passes max_depth;
here gas = max_depth + 1 - depth, so gas = 0 exactly when the source
returns on the depth check. The accumulator is the shared visited set
(insertion into a Python set; only membership is used) paired with the
emitted paths list. A node already visited stops; a missing event stops
after marking visited; a node with no outgoing (or incoming, going
backward) causal EVENT-typed edges emits the current path; otherwise the
traversal recurses over the edges in storage order. -/
def bfsGo (st : Storage) (forward : Bool) :
    Nat → UUID → List Event → List UUID × List CausalPath →
    List UUID × List CausalPath
  | 0, _, _, acc => acc
  | gas + 1, current_id, path, acc =>
    if current_id ∈ acc.1 then acc
    else
      let visited := current_id :: acc.1
      match get_event_by_id st current_id with
      | none => (visited, acc.2)
      | some event =>
        let current_path := path ++ [event]
        let rels := if forward then
            get_relationships_by_source st current_id .event
          else
            get_relationships_by_target st current_id .event
        let rels := rels.filter (fun r => r.relation_type = RelationType.causal)
        if rels.isEmpty then
          (visited, acc.2 ++ [{ events := current_path }])
        else
          rels.foldl
            (fun a r => bfsGo st forward gas (relNext forward r) current_path a)
            (visited, acc.2)

/-- trace_causality: run the traversal from the start event at depth 0
(gas max_depth + 1) with an empty visited set, and return the paths. -/
def trace_causality (st : Storage) (event_id : UUID) (max_depth : Nat)
    (forward : Bool) : List CausalPath :=
  (bfsGo st forward (max_depth + 1) event_id [] ([], [])).2

/-- The compression predicate of compress_events, checked on the fetched
event record. -/
def compressible (before : Time) (min_importance : ℚ) (e : Event) : Prop :=
  e.timestamp < before ∧ e.importance_score < min_importance ∧ 0 < e.detail_level

instance (before : Time) (min_importance : ℚ) (e : Event) :
    Decidable (compressible before min_importance e) := by
  unfold compressible; infer_instance

/-- compress_events: scan the timeline events; every one with timestamp
before the cutoff, importance below the threshold, and positive
detail_level gets detail_level decremented and written back; the count of
mutated events is returned. -/
def compress_events (st : Storage) (timeline_id : UUID) (before : Time)
    (min_importance : ℚ) : Storage × Nat :=
  let events := get_events_by_timeline st timeline_id
  events.foldl
    (fun acc event =>
      if compressible before min_importance event then
        (update_event acc.1 { event with detail_level := event.detail_level - 1 },
         acc.2 + 1)
      else acc)
    (st, 0)

/-- The copy loop of fork_timeline: for each source event construct a
fresh Event (new uuid4 id, the target timeline, the same timestamps,
type, description, importance, detail level and state delta; metadata is
not passed and defaults to empty) and insert it. A pydantic validation
failure aborts the loop, keeping the earlier inserts. -/
def copyEvents (st : Storage) (timeline_id : UUID) :
    List Event → Storage × Option String
  | [] => (st, none)
  | e :: rest =>
    match mkEvent st.nextId timeline_id e.timestamp e.end_timestamp e.event_type
        e.description e.importance_score e.detail_level e.state_delta with
    | .error msg => (st, some msg)
    | .ok ne => copyEvents (insert_event { st with nextId := st.nextId + 1 } ne)
        timeline_id rest

/-- fork_timeline: NotFound if the source timeline is missing; otherwise
insert a new Timeline whose parent is the source (status defaulting to
hypothetical at the call sites), then copy every source event with
timestamp at or before the fork point into it. -/
def fork_timeline (st : Storage) (source_timeline_id : UUID)
    (branch_name : String) (from_timestamp : Time)
    (status : TimelineStatus := .hypothetical) :
    Storage × Except String Timeline :=
  match get_timeline_by_id st source_timeline_id with
  | none => (st, .error "Timeline not found")
  | some source =>
    let fid := st.nextId
    match mkTimeline fid source.project_id source.user_id branch_name none
        (some source_timeline_id) status with
    | .error msg => (st, .error msg)
    | .ok forked =>
      let st1 := insert_timeline { st with nextId := st.nextId + 1 } forked
      let events := get_events_by_timeline st1 source_timeline_id
      let events_to_copy := events.filter (fun e => e.timestamp ≤ from_timestamp)
      match copyEvents st1 forked.id events_to_copy with
      | (st2, none) => (st2, .ok forked)
      | (st2, some msg) => (st2, .error msg)

/-- add_event: construct the Event through the validating constructor
(state_delta defaulting to empty when not supplied) and insert it; a
validation failure surfaces before any storage call, leaving the state
unchanged. -/
def add_event (st : Storage) (timeline_id : UUID) (timestamp : Time)
    (event_type : EventType) (description : String) (state_delta : Option StateDelta)
    (importance_score : ℚ) (end_timestamp : Option Time) :
    Storage × Except String Event :=
  match mkEvent st.nextId timeline_id timestamp end_timestamp event_type
      description importance_score 1 (state_delta.getD {}) with
  | .error msg => (st, .error msg)
  | .ok ev => (insert_event { st with nextId := st.nextId + 1 } ev, .ok ev)

-- === Specification-side definitions (for refinement statements only) ===

/-- The replay window as the specification words it: the timeline events
with timestamp between the window start and the target, both inclusive,
in ascending timestamp order. -/
def replayWindow (st : Storage) (timeline_id : UUID) (start target : Time) :
    List Event :=
  pySortByTimestamp ((get_events_by_timeline st timeline_id).filter
    (fun e => start ≤ e.timestamp ∧ e.timestamp ≤ target))

/-- State reconstruction as the specification words it: keep the snapshots
at or before the target, start from the one with the maximal timestamp
(an empty WorldState at the minimum representable instant if none), and
fold the state deltas of the replay window over it. Compared against
reconstruct_state_at, which routes the window through query_events. -/
def reconstructSpec (st : Storage) (timeline_id : UUID) (timestamp : Time)
    (entity_ids : Option (List UUID)) : WorldState :=
  let snapshots := (get_snapshots_by_timeline st timeline_id).filter
    (fun s => s.timestamp ≤ timestamp)
  let startPair : WorldState × Time := match pyMaxByTimestamp snapshots with
    | some nearest => (nearest.state, nearest.timestamp)
    | none => ({}, datetimeMin)
  (replayWindow st timeline_id startPair.2 timestamp).foldl
    (applyDelta entity_ids) startPair.1

/-- The last value written for a key by a change list, if any. -/
def lastValue {K V : Type} [DecidableEq K] (other : List (K × V)) (k : K) :
    Option V :=
  other.foldl (fun acc p => if p.1 = k then some p.2 else acc) none

-- === Concrete scenario fixtures ===

/-- An event whose delta sets one global key to a number. -/
def scenEvent (id timeline_id : UUID) (t : Time) (key : String) (v : ℚ) : Event :=
  { id, timeline_id, timestamp := t, event_type := .observation,
    description := "set",
    state_delta := { global_changes := [(key, ⟨key, { number_val := some v }⟩)] } }

/-- Storage with no snapshots and two events writing 1 then 2 to one
global key at t1 and t2. -/
def scenStorage (timeline_id : UUID) (key : String) (t1 t2 : Time) : Storage :=
  { events := [scenEvent 0 timeline_id t1 key 1, scenEvent 1 timeline_id t2 key 2],
    nextId := 2 }

/-- All supplied filters of query_events, read conjunctively. -/
def matchesFilters (start endT : Option Time) (tys : Option (List EventType))
    (minImp : ℚ) (dl : Option Nat) (e : Event) : Prop :=
  (∀ s, start = some s → s ≤ e.timestamp)
  ∧ (∀ t, endT = some t → e.timestamp ≤ t)
  ∧ (∀ l, tys = some l → e.event_type ∈ l)
  ∧ minImp ≤ e.importance_score
  ∧ (∀ d, dl = some d → e.detail_level = d)

instance (start endT : Option Time) (tys : Option (List EventType))
    (minImp : ℚ) (dl : Option Nat) (e : Event) :
    Decidable (matchesFilters start endT tys minImp dl e) := by
  unfold matchesFilters; infer_instance

/-- A bare event used in concrete fixtures (the importance score is the
literal 1 so that concrete evaluation avoids rational arithmetic). -/
def cexEvent : Event :=
  { id := 0, timeline_id := 0, timestamp := 0, event_type := .observation,
    description := "e", importance_score := 1 }

/-- Storage holding exactly one event on timeline 0. -/
def cexStorage : Storage := { events := [cexEvent], nextId := 1 }

/-- The fields of an Event that the fork copy carries over unchanged:
timestamps, type, description, importance, detail level, state delta. -/
def eventContent (e : Event) :
    Time × Option Time × EventType × String × ℚ × Nat × StateDelta :=
  (e.timestamp, e.end_timestamp, e.event_type, e.description,
   e.importance_score, e.detail_level, e.state_delta)

/-- The model invariants a stored Event satisfies (established by the
pydantic constructor before insertion). -/
def ValidEvent (e : Event) : Prop :=
  1 ≤ e.description.length ∧ 0 ≤ e.importance_score ∧ e.importance_score ≤ 1
  ∧ e.detail_level ≤ 2 ∧ ∀ t, e.end_timestamp = some t → e.timestamp < t

instance (e : Event) : Decidable (ValidEvent e) := by
  unfold ValidEvent; infer_instance

/-- The event records the fork copy loop produces from a source list,
with ids drawn consecutively from n: same content fields, the target
timeline, empty metadata (the copy does not pass metadata along). -/
def copyList (n timeline_id : UUID) : List Event → List Event
  | [] => []
  | e :: rest =>
      { e with id := n, timeline_id := timeline_id, metadata := [] }
        :: copyList (n + 1) timeline_id rest

/-- Storage with one timeline (id 5) and one event on it, for fork
witnesses. -/
def forkStorage : Storage :=
  { timelines := [{ id := 5, project_id := 1, user_id := 2, name := "main" }],
    events := [{ cexEvent with timeline_id := 5 }],
    nextId := 6 }

/-- An event with the given id, for causal-graph fixtures. -/
def chainEvent (id : UUID) : Event :=
  { id, timeline_id := 0, timestamp := 0, event_type := .observation,
    description := "ev", importance_score := 1 }

/-- A causal EVENT-to-EVENT relationship edge. -/
def causalRel (rid s t : UUID) : Relationship :=
  { id := rid, source_id := s, source_type := .event, target_id := t,
    target_type := .event, relation_type := .causal }

/-- Storage holding a linear causal chain a to b to c. -/
def chainStorage (a b c : UUID) : Storage :=
  { events := [chainEvent a, chainEvent b, chainEvent c],
    relationships := [causalRel 100 a b, causalRel 101 b c],
    nextId := 102 }

/-- One run of compress_events, as a per-event function: decrement the
detail level of a timeline event meeting the compression conditions. -/
def compressStep (tid : UUID) (before : Time) (minImp : ℚ) (x : Event) : Event :=
  if x.timeline_id = tid ∧ compressible before minImp x
  then { x with detail_level := x.detail_level - 1 } else x

/-- An event with detail_level 2 qualifying for compression. -/
def compEvent : Event :=
  { id := 0, timeline_id := 0, timestamp := 0, event_type := .observation,
    description := "e", importance_score := 0, detail_level := 2 }

/-- Storage holding exactly the compressible event. -/
def compStorage : Storage := { events := [compEvent], nextId := 1 }

/-- The number of distinct stored event ids not yet in the visited set:
the quantity each productive step of the causal traversal strictly
decreases. -/
def remaining (st : Storage) (visited : List UUID) : Nat :=
  (((st.events.map (fun e => e.id)).dedup).filter (fun i => i ∉ visited)).length

/-- Storage holding one relationship whose endpoints are typed ENTITY. -/
def entRelStorage : Storage :=
  { relationships := [{ id := 50, source_id := 100, source_type := .entity,
                        target_id := 101, target_type := .entity,
                        relation_type := .temporal, strength := 1 }],
    nextId := 200 }

-- === Dictionary lemmas ===

theorem dictGet_dictSet_self {K V : Type} [DecidableEq K]
    (d : List (K × V)) (k : K) (v : V) : dictGet (dictSet d k v) k = some v := by
  induction d with
  | nil => simp [dictSet, dictGet]
  | cons p rest ih =>
      by_cases h : p.1 = k
      · simp [dictSet, dictGet, h]
      · simpa [dictSet, dictGet, h] using ih

theorem dictGet_dictSet_ne {K V : Type} [DecidableEq K]
    (d : List (K × V)) (k k' : K) (v : V) (h : k' ≠ k) :
    dictGet (dictSet d k' v) k = dictGet d k := by
  induction d with
  | nil => simp [dictSet, dictGet, h]
  | cons p rest ih =>
      by_cases hp : p.1 = k'
      · simp [dictSet, dictGet, hp, h]
      · by_cases hk : p.1 = k
        · simp [dictSet, dictGet, hp, hk, Ne.symm h]
        · simpa [dictSet, dictGet, hp, hk] using ih

theorem lastValue_foldl {K V : Type} [DecidableEq K]
    (other : List (K × V)) (k : K) (a : Option V) :
    other.foldl (fun acc p => if p.1 = k then some p.2 else acc) a
      = (lastValue other k).or a := by
  induction other generalizing a with
  | nil => simp [lastValue]
  | cons q rest ih =>
      show rest.foldl _ (if q.1 = k then some q.2 else a) = _
      rw [ih]
      have hq : lastValue (q :: rest) k
          = (lastValue rest k).or (if q.1 = k then some q.2 else none) := by
        show rest.foldl _ (if q.1 = k then some q.2 else none) = _
        rw [ih]
      rw [hq, Option.or_assoc]
      by_cases h : q.1 = k <;> simp [h]

theorem dictGet_dictUpdate {K V : Type} [DecidableEq K]
    (d other : List (K × V)) (k : K) :
    dictGet (dictUpdate d other) k = (lastValue other k).or (dictGet d k) := by
  induction other generalizing d with
  | nil => simp [dictUpdate, lastValue]
  | cons p rest ih =>
      show dictGet (dictUpdate (dictSet d p.1 p.2) rest) k = _
      rw [ih]
      have hset : dictGet (dictSet d p.1 p.2) k
          = if p.1 = k then some p.2 else dictGet d k := by
        by_cases h : p.1 = k
        · subst h; simp [dictGet_dictSet_self]
        · simp [h, dictGet_dictSet_ne d k p.1 p.2 h]
      have hlast : lastValue (p :: rest) k
          = (lastValue rest k).or (if p.1 = k then some p.2 else none) :=
        lastValue_foldl rest k _
      rw [hset, hlast, Option.or_assoc]
      by_cases h : p.1 = k <;> simp [h]

-- === Window equivalence ===

theorem query_eq_replayWindow (st : Storage) (timeline_id : UUID)
    (s t : Time) :
    query_events st timeline_id (some s) (some t) none 0 none none
      = replayWindow st timeline_id s t := by
  simp only [query_events, replayWindow, List.filter_filter]
  congr 1
  apply List.filter_congr
  intro e _
  by_cases h1 : s ≤ e.timestamp <;> by_cases h2 : e.timestamp ≤ t <;>
    simp [h1, h2]

/-- Entity-level changes do not touch the global property map. -/
theorem applyEntityChange_global (eids : Option (List UUID)) (s : WorldState)
    (item : UUID × List (String × EntityProperty)) :
    (applyEntityChange eids s item).global_properties = s.global_properties := by
  unfold applyEntityChange
  dsimp only
  split <;> rfl

theorem applyDelta_global (eids : Option (List UUID)) (s : WorldState)
    (e : Event) (k : String) :
    dictGet (applyDelta eids s e).global_properties k
      = (lastValue e.state_delta.global_changes k).or (dictGet s.global_properties k) := by
  unfold applyDelta
  have hfold : ∀ (l : List (UUID × List (String × EntityProperty)))
      (w : WorldState), (l.foldl (applyEntityChange eids) w).global_properties
        = w.global_properties := by
    intro l
    induction l with
    | nil => intro w; rfl
    | cons x xs ih => intro w; rw [List.foldl_cons, ih, applyEntityChange_global]
  rw [hfold]
  simpa using dictGet_dictUpdate s.global_properties e.state_delta.global_changes k

-- === query_events filter characterization ===

theorem stage_start (events : List Event) (start : Option Time) :
    (match start with
      | some s => events.filter (fun e => s ≤ e.timestamp)
      | none => events)
    = events.filter (fun e => ∀ s, start = some s → s ≤ e.timestamp) := by
  cases start with
  | none => simp
  | some s => apply List.filter_congr; intro e _; simp

theorem stage_end (events : List Event) (endT : Option Time) :
    (match endT with
      | some t => events.filter (fun e => e.timestamp ≤ t)
      | none => events)
    = events.filter (fun e => ∀ t, endT = some t → e.timestamp ≤ t) := by
  cases endT with
  | none => simp
  | some t => apply List.filter_congr; intro e _; simp

theorem stage_dl (events : List Event) (dl : Option Nat) :
    (match dl with
      | some d => events.filter (fun e => e.detail_level = d)
      | none => events)
    = events.filter (fun e => ∀ d, dl = some d → e.detail_level = d) := by
  cases dl with
  | none => simp
  | some d => apply List.filter_congr; intro e _; simp

/-- With a nonempty type filter (when supplied) and importance scores in
range (a model invariant of stored events), the unlimited query is the
stable ascending sort of the timeline events passing all filters. -/
theorem query_prefilter (st : Storage) (tid : UUID)
    (start endT : Option Time) (tys : Option (List EventType))
    (minImp : ℚ) (dl : Option Nat)
    (htys : ∀ l, tys = some l → l ≠ [])
    (himp : ∀ e ∈ st.events, 0 ≤ e.importance_score) :
    query_events st tid start endT tys minImp dl none
      = pySortByTimestamp ((get_events_by_timeline st tid).filter
          (fun e => matchesFilters start endT tys minImp dl e)) := by
  unfold query_events
  dsimp only
  rw [stage_start, stage_end]
  have himp2 : ∀ (l : List Event), (∀ e ∈ l, e ∈ st.events) →
      (if minImp ≠ 0 then l.filter (fun e => minImp ≤ e.importance_score) else l)
        = l.filter (fun e => minImp ≤ e.importance_score) := by
    intro l hl
    by_cases h0 : minImp = 0
    · subst h0
      simp only [ne_eq, not_true_eq_false, ite_false]
      symm
      rw [List.filter_eq_self]
      intro e he
      simpa using himp e (hl e he)
    · rw [if_pos h0]
  have hmem : ∀ e, e ∈ (List.filter (fun e => decide (∀ t, endT = some t → e.timestamp ≤ t))
      (List.filter (fun e => decide (∀ s, start = some s → s ≤ e.timestamp))
        (get_events_by_timeline st tid))) → e ∈ st.events := by
    intro e he
    exact List.mem_of_mem_filter (List.mem_of_mem_filter (List.mem_of_mem_filter he))
  rcases tys with _ | l
  · dsimp only
    rw [himp2 _ hmem, stage_dl]
    rw [List.filter_filter, List.filter_filter, List.filter_filter]
    refine congrArg pySortByTimestamp ?_
    apply List.filter_congr
    intro e _
    have h3 : (∀ l1 : List EventType, (none : Option (List EventType)) = some l1 →
        e.event_type ∈ l1) ↔ True := by simp
    simp only [matchesFilters, h3, true_and, and_true, Bool.decide_and]
    ac_rfl
  · dsimp only
    have hl : l.isEmpty = false := by simpa using htys l rfl
    simp only [hl, Bool.false_eq_true, if_false]
    rw [himp2 _ (fun e he => hmem e (List.mem_of_mem_filter he)), stage_dl]
    rw [List.filter_filter, List.filter_filter, List.filter_filter,
      List.filter_filter]
    refine congrArg pySortByTimestamp ?_
    apply List.filter_congr
    intro e _
    have h3 : (∀ l1 : List EventType, some l = some l1 → e.event_type ∈ l1)
        ↔ e.event_type ∈ l := by simp
    simp only [matchesFilters, h3, Bool.decide_and]
    ac_rfl

/-- A positive limit truncates the unlimited result from the front. -/
theorem query_limit (st : Storage) (tid : UUID)
    (start endT : Option Time) (tys : Option (List EventType))
    (minImp : ℚ) (dl : Option Nat) (k : Int) (hk : 0 < k) :
    query_events st tid start endT tys minImp dl (some k)
      = (query_events st tid start endT tys minImp dl none).take k.toNat := by
  unfold query_events
  dsimp only
  rw [if_pos (by exact ne_of_gt hk)]
  unfold pyTake
  rw [if_pos (le_of_lt hk)]

-- === Claim theorems ===

/-- C1: reconstruct_state_at selects, among the timeline snapshots with
timestamp at or before the target, the one with the maximal timestamp as
the starting state (an empty WorldState at the minimum instant if none),
then applies the state_delta of every event in the replay window up to
and including the target in ascending timestamp order (first conjunct:
refinement against the specification-worded algorithm), merging
global_changes with last-write-wins per key (second conjunct); in
particular, with no snapshots and two events setting a global key to 1
at t1 and to 2 at t2 with t1 < t2 and t2 at or before the target, the
key reads 2 (third conjunct), and reconstructing strictly before t1
yields a state without the key (fourth conjunct, the whole state being
empty). -/
theorem reconstruct_state_at_C1 :
    (∀ (st : Storage) (tid : UUID) (ts : Time) (eids : Option (List UUID)),
      reconstruct_state_at st tid ts eids = reconstructSpec st tid ts eids)
    ∧ (∀ (eids : Option (List UUID)) (s : WorldState) (e : Event) (k : String),
      dictGet (applyDelta eids s e).global_properties k
        = (lastValue e.state_delta.global_changes k).or (dictGet s.global_properties k))
    ∧ (∀ (tid : UUID) (key : String) (t1 t2 target : Time), t1 < t2 → t2 ≤ target →
      dictGet (reconstruct_state_at (scenStorage tid key t1 t2) tid target
        none).global_properties key = some ⟨key, { number_val := some 2 }⟩)
    ∧ (∀ (tid : UUID) (key : String) (t1 t2 tE : Time), t1 < t2 → tE < t1 →
      reconstruct_state_at (scenStorage tid key t1 t2) tid tE none = {}) := by
  refine ⟨?_, ?_, ?_, ?_⟩
  · intro st tid ts eids
    unfold reconstruct_state_at reconstructSpec
    simp only [query_eq_replayWindow]
  · intro eids s e k
    exact applyDelta_global eids s e k
  · intro tid key t1 t2 target h12 h2t
    have h1t : t1 ≤ target := le_of_lt (lt_of_lt_of_le h12 h2t)
    have h1 : t1 ≤ t2 := le_of_lt h12
    simp [reconstruct_state_at, scenStorage, get_snapshots_by_timeline,
      get_events_by_timeline, query_events, pyMaxByTimestamp, scenEvent,
      pySortByTimestamp, List.insertionSort, List.orderedInsert, eventLE,
      h1t, h2t, h1, applyDelta, applyEntityChange, dictUpdate, dictSet, dictGet,
      datetimeMin]
  · intro tid key t1 t2 tE h12 hE
    have h1 : ¬ (t1 ≤ tE) := not_le.mpr hE
    have h2 : ¬ (t2 ≤ tE) := not_le.mpr (lt_trans hE h12)
    simp [reconstruct_state_at, scenStorage, get_snapshots_by_timeline,
      get_events_by_timeline, query_events, pyMaxByTimestamp, scenEvent,
      pySortByTimestamp, List.insertionSort, List.orderedInsert, eventLE,
      h1, h2, datetimeMin]

/-- Witness for C1 at a concrete input: timeline 7, key x written at
times 1 and 2, read back at time 5 and at time 0. -/
theorem reconstruct_state_at_C1_witness :
    dictGet (reconstruct_state_at (scenStorage 7 "x" 1 2) 7 5
        none).global_properties "x" = some ⟨"x", { number_val := some 2 }⟩
    ∧ reconstruct_state_at (scenStorage 7 "x" 1 2) 7 0 none = {} :=
  ⟨reconstruct_state_at_C1.2.2.1 7 "x" 1 2 5 (by decide) (by decide),
   reconstruct_state_at_C1.2.2.2 7 "x" 1 2 0 (by decide) (by decide)⟩

/-- C2 (amended): for every timeline and supplied filter combination in
which the event-type list, when supplied, is nonempty and the limit,
when supplied, is positive (query_events treats an empty type list and a
zero limit as absent, by Python truthiness), and with stored importance
scores in the model range, the unlimited result is sorted ascending by
timestamp, every element lies on the timeline and satisfies all supplied
filters conjunctively, the result is a permutation of the qualifying
timeline events (so exactly the qualifying events), and a limit of k
returns the first k of the sorted unlimited result, i.e. the k earliest
qualifying events. -/
theorem query_events_C2 (st : Storage) (tid : UUID)
    (start endT : Option Time) (tys : Option (List EventType))
    (minImp : ℚ) (dl : Option Nat) (k : Int)
    (htys : ∀ l, tys = some l → l ≠ [])
    (himp : ∀ e ∈ st.events, 0 ≤ e.importance_score)
    (hk : 0 < k) :
    (query_events st tid start endT tys minImp dl none).Sorted eventLE
    ∧ (∀ e ∈ query_events st tid start endT tys minImp dl none,
        e.timeline_id = tid ∧ matchesFilters start endT tys minImp dl e)
    ∧ (query_events st tid start endT tys minImp dl none).Perm
        (st.events.filter (fun e => e.timeline_id = tid
          ∧ matchesFilters start endT tys minImp dl e))
    ∧ query_events st tid start endT tys minImp dl (some k)
        = (query_events st tid start endT tys minImp dl none).take k.toNat := by
  refine ⟨?_, ?_, ?_, query_limit st tid start endT tys minImp dl k hk⟩
  all_goals rw [query_prefilter st tid start endT tys minImp dl htys himp]
  · exact List.sorted_insertionSort eventLE _
  · intro e he
    have he2 := (List.perm_insertionSort eventLE _).mem_iff.mp he
    have h1 := List.mem_of_mem_filter he2
    have h2 := List.of_mem_filter he2
    have h3 := List.of_mem_filter h1
    exact ⟨by simpa using h3, by simpa using h2⟩
  · refine (List.perm_insertionSort eventLE _).trans ?_
    rw [get_events_by_timeline, List.filter_filter]
    apply List.Perm.of_eq
    apply List.filter_congr
    intro e _
    by_cases h1 : e.timeline_id = tid <;>
      by_cases h2 : matchesFilters start endT tys minImp dl e <;>
      simp [h1, h2]

/-- Witness for C2 at a concrete input: the one-event storage, no
filters, limit 1. -/
theorem query_events_C2_witness :
    (query_events cexStorage 0 none none none 0 none none).Sorted eventLE
    ∧ (∀ e ∈ query_events cexStorage 0 none none none 0 none none,
        e.timeline_id = 0 ∧ matchesFilters none none none 0 none e)
    ∧ (query_events cexStorage 0 none none none 0 none none).Perm
        (cexStorage.events.filter (fun e => e.timeline_id = 0
          ∧ matchesFilters none none none 0 none e))
    ∧ query_events cexStorage 0 none none none 0 none (some 1)
        = (query_events cexStorage 0 none none none 0 none none).take (1 : Int).toNat :=
  query_events_C2 cexStorage 0 none none none 0 none 1
    (fun l h => by simp at h) (by decide) (by decide)

/-- Counterexample to C2 as stated: with one qualifying stored event, a
supplied limit of 0 returns the whole result rather than the 0 earliest
qualifying events, and a supplied empty event-type list returns the event
even though it belongs to no permitted type (both are Python-falsy and
skip their filter). -/
theorem query_events_C2_cex :
    query_events cexStorage 0 none none none 0 none (some 0) = [cexEvent]
    ∧ query_events cexStorage 0 none none (some []) 0 none none = [cexEvent]
    ∧ cexEvent.event_type ∉ ([] : List EventType) := by
  refine ⟨by decide, by decide, by simp⟩

-- === Fork lemmas ===

theorem mkEvent_ok (n tid : UUID) (e : Event) (hv : ValidEvent e) :
    mkEvent n tid e.timestamp e.end_timestamp e.event_type e.description
      e.importance_score e.detail_level e.state_delta
    = .ok { e with id := n, timeline_id := tid, metadata := [] } := by
  obtain ⟨h1, h2, h3, h4, h5⟩ := hv
  unfold mkEvent
  rw [if_neg (by omega), if_neg (by rw [not_or, not_lt, not_lt]; exact ⟨h2, h3⟩),
    if_neg (by omega)]
  cases hE : e.end_timestamp with
  | none => rfl
  | some t =>
      dsimp only
      rw [if_neg (not_le.mpr (h5 t hE))]

theorem copyEvents_spec (l : List Event) (st0 : Storage) (tid : UUID)
    (hv : ∀ e ∈ l, ValidEvent e) :
    copyEvents st0 tid l
      = ({ st0 with
            events := st0.events ++ copyList st0.nextId tid l,
            nextId := st0.nextId + l.length }, none) := by
  induction l generalizing st0 with
  | nil => simp [copyEvents, copyList]
  | cons e rest ih =>
      rw [copyEvents, mkEvent_ok st0.nextId tid e (hv e (by simp))]
      dsimp only
      rw [ih _ (fun x hx => hv x (by simp [hx]))]
      simp [insert_event, copyList]
      ring

theorem copyList_map_content (n tid : UUID) (l : List Event) :
    (copyList n tid l).map eventContent = l.map eventContent := by
  induction l generalizing n with
  | nil => rfl
  | cons e rest ih => simp [copyList, eventContent, ih]

theorem copyList_shape (n tid : UUID) (l : List Event) :
    ∀ ec ∈ copyList n tid l, ec.timeline_id = tid ∧ n ≤ ec.id
      ∧ ∃ e ∈ l, ec = { e with id := ec.id, timeline_id := tid, metadata := [] } := by
  induction l generalizing n with
  | nil => simp [copyList]
  | cons e rest ih =>
      intro ec hec
      rcases (by simpa [copyList] using hec :
          ec = { e with id := n, timeline_id := tid, metadata := [] }
            ∨ ec ∈ copyList (n + 1) tid rest) with h | h
      · subst h
        exact ⟨rfl, le_rfl, e, by simp⟩
      · obtain ⟨h1, h2, e2, he2, h3⟩ := ih (n + 1) ec h
        exact ⟨h1, le_trans (Nat.le_succ n) h2, e2, by simp [he2], h3⟩

/-- On a found source, fork inserts the branch timeline and the copies of
the source events up to the fork point, in one equation. -/
theorem fork_found (st : Storage) (sid : UUID) (bn : String) (t : Time)
    (status : TimelineStatus) (src : Timeline)
    (hsrc : get_timeline_by_id st sid = some src)
    (hb1 : 1 ≤ bn.length) (hb2 : bn.length ≤ 255)
    (hval : ∀ e ∈ st.events, ValidEvent e) :
    fork_timeline st sid bn t status
      = ({ st with
            timelines := st.timelines ++
              [⟨st.nextId, src.project_id, src.user_id, bn, none, some sid, status⟩],
            events := st.events ++ copyList (st.nextId + 1) st.nextId
              ((get_events_by_timeline st sid).filter (fun e => e.timestamp ≤ t)),
            nextId := st.nextId + 1 +
              ((get_events_by_timeline st sid).filter (fun e => e.timestamp ≤ t)).length },
         .ok ⟨st.nextId, src.project_id, src.user_id, bn, none, some sid, status⟩) := by
  unfold fork_timeline
  rw [hsrc]
  dsimp only
  unfold mkTimeline
  rw [if_neg (by omega)]
  dsimp only [insert_timeline, get_events_by_timeline]
  rw [copyEvents_spec _ _ _ (fun e he => hval e
    (List.mem_of_mem_filter (List.mem_of_mem_filter he)))]

/-- C3: forking a missing source fails with NotFound and writes nothing
(first conjunct); status defaults to hypothetical (second conjunct); on a
found source (with well-formed stored events and a fresh id counter) fork
returns a new Timeline whose parent_timeline_id is the source id with the
requested status, appends exactly it to the timelines, and the events of
the fork are precisely fresh-id copies of the source events with
timestamp at or before the fork point: same content fields, all copies
within the window, and every copied id distinct from every stored id;
source events after the fork point are absent (third conjunct). -/
theorem fork_timeline_C3 :
    (∀ (st : Storage) (sid : UUID) (bn : String) (t : Time) (status : TimelineStatus),
      get_timeline_by_id st sid = none →
        fork_timeline st sid bn t status = (st, .error "Timeline not found"))
    ∧ (∀ (st : Storage) (sid : UUID) (bn : String) (t : Time),
        fork_timeline st sid bn t = fork_timeline st sid bn t .hypothetical)
    ∧ (∀ (st : Storage) (sid : UUID) (bn : String) (t : Time) (status : TimelineStatus)
        (src : Timeline),
      get_timeline_by_id st sid = some src →
      1 ≤ bn.length → bn.length ≤ 255 →
      (∀ e ∈ st.events, ValidEvent e) →
      (∀ e ∈ st.events, e.id < st.nextId ∧ e.timeline_id < st.nextId) →
      ∃ fk : Timeline,
        (fork_timeline st sid bn t status).2 = .ok fk
        ∧ fk.parent_timeline_id = some sid
        ∧ fk.status = status
        ∧ fk.project_id = src.project_id ∧ fk.user_id = src.user_id ∧ fk.name = bn
        ∧ (fork_timeline st sid bn t status).1.timelines = st.timelines ++ [fk]
        ∧ get_events_by_timeline (fork_timeline st sid bn t status).1 fk.id
            = copyList (st.nextId + 1) fk.id
                ((get_events_by_timeline st sid).filter (fun e => e.timestamp ≤ t))
        ∧ (get_events_by_timeline (fork_timeline st sid bn t status).1 fk.id).map
              eventContent
            = ((get_events_by_timeline st sid).filter
                (fun e => e.timestamp ≤ t)).map eventContent
        ∧ (∀ ec ∈ get_events_by_timeline (fork_timeline st sid bn t status).1 fk.id,
            ec.timestamp ≤ t ∧ (∀ eo ∈ st.events, ec.id ≠ eo.id))) := by
  refine ⟨?_, ?_, ?_⟩
  · intro st sid bn t status h
    unfold fork_timeline
    rw [h]
  · intro st sid bn t
    rfl
  · intro st sid bn t status src hsrc hb1 hb2 hval hfresh
    have hfork := fork_found st sid bn t status src hsrc hb1 hb2 hval
    have hev : get_events_by_timeline (fork_timeline st sid bn t status).1 st.nextId
        = copyList (st.nextId + 1) st.nextId
            ((get_events_by_timeline st sid).filter (fun e => e.timestamp ≤ t)) := by
      rw [hfork]
      show List.filter _ (st.events ++ _) = _
      rw [List.filter_append]
      have h1 : List.filter (fun e => decide (e.timeline_id = st.nextId)) st.events
          = [] := by
        rw [List.filter_eq_nil_iff]
        intro e he
        simpa using Nat.ne_of_lt (hfresh e he).2
      have h2 : List.filter (fun e => decide (e.timeline_id = st.nextId))
          (copyList (st.nextId + 1) st.nextId
            ((get_events_by_timeline st sid).filter (fun e => e.timestamp ≤ t)))
          = copyList (st.nextId + 1) st.nextId
            ((get_events_by_timeline st sid).filter (fun e => e.timestamp ≤ t)) := by
        rw [List.filter_eq_self]
        intro ec hec
        simpa using (copyList_shape _ _ _ ec hec).1
      rw [h1, h2, List.nil_append]
    refine ⟨⟨st.nextId, src.project_id, src.user_id, bn, none, some sid, status⟩,
      by rw [hfork], rfl, rfl, rfl, rfl, rfl, by rw [hfork], hev, ?_, ?_⟩
    · rw [hev, copyList_map_content]
    · intro ec hec
      rw [hev] at hec
      obtain ⟨htid, hge, e, hel, heq⟩ := copyList_shape _ _ _ ec hec
      constructor
      · have := List.of_mem_filter hel
        rw [heq]
        simpa using this
      · intro eo heo
        have hlt := (hfresh eo heo).1
        exact Nat.ne_of_gt (lt_trans hlt (Nat.lt_of_succ_le hge))

/-- Witness for C3 at concrete inputs: a missing source on the one-event
storage, and a found source on the one-timeline storage. -/
theorem fork_timeline_C3_witness :
    fork_timeline cexStorage 9 "branch" 0 .hypothetical
      = (cexStorage, .error "Timeline not found")
    ∧ ∃ fk : Timeline,
        (fork_timeline forkStorage 5 "branch" 3 .hypothetical).2 = .ok fk
        ∧ fk.parent_timeline_id = some 5
        ∧ fk.status = .hypothetical
        ∧ fk.project_id = 1 ∧ fk.user_id = 2 ∧ fk.name = "branch"
        ∧ (fork_timeline forkStorage 5 "branch" 3 .hypothetical).1.timelines
            = forkStorage.timelines ++ [fk]
        ∧ get_events_by_timeline (fork_timeline forkStorage 5 "branch" 3 .hypothetical).1 fk.id
            = copyList (forkStorage.nextId + 1) fk.id
                ((get_events_by_timeline forkStorage 5).filter (fun e => e.timestamp ≤ 3))
        ∧ (get_events_by_timeline (fork_timeline forkStorage 5 "branch" 3
              .hypothetical).1 fk.id).map eventContent
            = ((get_events_by_timeline forkStorage 5).filter
                (fun e => e.timestamp ≤ 3)).map eventContent
        ∧ (∀ ec ∈ get_events_by_timeline (fork_timeline forkStorage 5 "branch" 3
              .hypothetical).1 fk.id,
            ec.timestamp ≤ 3 ∧ (∀ eo ∈ forkStorage.events, ec.id ≠ eo.id)) :=
  ⟨fork_timeline_C3.1 cexStorage 9 "branch" 0 .hypothetical (by decide),
   fork_timeline_C3.2.2 forkStorage 5 "branch" 3 .hypothetical
     ⟨5, 1, 2, "main", none, none, .canonical⟩ (by decide) (by decide) (by decide)
     (by decide) (by decide)⟩

/-- C4: on a storage with a linear causal chain a to b to c (all edges
causal), tracing forward from a with sufficient max_depth returns exactly
one path visiting a, b, c in order; tracing from c, which has no outgoing
causal edges, returns exactly one path with c alone (any max_depth); and
tracing from an id with no stored event returns the empty list (any
max_depth). -/
theorem trace_causality_C4 :
    (∀ (a b c : UUID) (d : Nat), a ≠ b → a ≠ c → b ≠ c → 2 ≤ d →
      trace_causality (chainStorage a b c) a d true
        = [{ events := [chainEvent a, chainEvent b, chainEvent c] }])
    ∧ (∀ (a b c : UUID) (d : Nat), a ≠ b → a ≠ c → b ≠ c →
      trace_causality (chainStorage a b c) c d true = [{ events := [chainEvent c] }])
    ∧ (∀ (a b c x : UUID) (d : Nat), x ≠ a → x ≠ b → x ≠ c →
      trace_causality (chainStorage a b c) x d true = []) := by
  refine ⟨?_, ?_, ?_⟩
  · intro a b c d hab hac hbc hd
    obtain ⟨k, rfl⟩ : ∃ k, d = k + 2 := ⟨d - 2, by omega⟩
    simp [trace_causality, bfsGo, chainStorage, chainEvent, causalRel,
      get_event_by_id, get_relationships_by_source, relNext,
      hab, hac, hbc, Ne.symm hab, Ne.symm hac, Ne.symm hbc]
  · intro a b c d hab hac hbc
    simp [trace_causality, bfsGo, chainStorage, chainEvent, causalRel,
      get_event_by_id, get_relationships_by_source, relNext,
      hab, hac, hbc, Ne.symm hab, Ne.symm hac, Ne.symm hbc]
  · intro a b c x d hxa hxb hxc
    simp [trace_causality, bfsGo, chainStorage, chainEvent, causalRel,
      get_event_by_id, get_relationships_by_source, relNext,
      hxa, hxb, hxc, Ne.symm hxa, Ne.symm hxb, Ne.symm hxc]

/-- Witness for C4 at concrete inputs: chain 1, 2, 3 with max_depth 5,
and start id 4 absent from storage. -/
theorem trace_causality_C4_witness :
    trace_causality (chainStorage 1 2 3) 1 5 true
      = [{ events := [chainEvent 1, chainEvent 2, chainEvent 3] }]
    ∧ trace_causality (chainStorage 1 2 3) 3 5 true = [{ events := [chainEvent 3] }]
    ∧ trace_causality (chainStorage 1 2 3) 4 5 true = [] :=
  ⟨trace_causality_C4.1 1 2 3 5 (by decide) (by decide) (by decide) (by decide),
   trace_causality_C4.2.1 1 2 3 5 (by decide) (by decide) (by decide),
   trace_causality_C4.2.2 1 2 3 4 5 (by decide) (by decide) (by decide)⟩

/-- C5 (amended): get_relationships returns exactly the stored edges in
which the argument appears as source (when as_source) or as target (when
as_target) AND whose source_type (respectively target_type) is EVENT —
the repository always queries the adapter with SourceType.EVENT —
restricted to the given relation_type when supplied and to temporally
valid edges when at_time is supplied. -/
theorem get_relationships_C5 (st : Storage) (eid : UUID)
    (rt : Option RelationType) (at_time : Option Time)
    (as_source as_target : Bool) (r : Relationship) :
    r ∈ get_relationships st eid rt at_time as_source as_target ↔
      (r ∈ st.relationships
       ∧ ((as_source = true ∧ r.source_id = eid ∧ r.source_type = .event)
          ∨ (as_target = true ∧ r.target_id = eid ∧ r.target_type = .event))
       ∧ (∀ rtv, rt = some rtv → r.relation_type = rtv)
       ∧ (∀ t, at_time = some t → validAt t r = true)) := by
  unfold get_relationships
  dsimp only
  rcases rt with _ | rtv <;> rcases at_time with _ | t <;>
    cases as_source <;> cases as_target <;>
    simp [get_relationships_by_source, get_relationships_by_target,
      List.mem_filter, List.mem_append] <;> tauto

/-- Witness for C5 at a concrete input: the chain storage, entity id 1,
no filters, both direction flags set. -/
theorem get_relationships_C5_witness :
    causalRel 100 1 2 ∈ get_relationships (chainStorage 1 2 3) 1 none none
        true true ↔
      (causalRel 100 1 2 ∈ (chainStorage 1 2 3).relationships
       ∧ ((true = true ∧ (causalRel 100 1 2).source_id = 1
            ∧ (causalRel 100 1 2).source_type = .event)
          ∨ (true = true ∧ (causalRel 100 1 2).target_id = 1
            ∧ (causalRel 100 1 2).target_type = .event))
       ∧ (∀ rtv, (none : Option RelationType) = some rtv →
            (causalRel 100 1 2).relation_type = rtv)
       ∧ (∀ t, (none : Option Time) = some t →
            validAt t (causalRel 100 1 2) = true)) :=
  get_relationships_C5 (chainStorage 1 2 3) 1 none none true true
    (causalRel 100 1 2)

/-- Counterexample to C5 as stated: a stored edge in which entity 100
appears as source but whose endpoint types are ENTITY is not returned by
get_relationships, because the repository hard-codes SourceType.EVENT in
both adapter queries. -/
theorem get_relationships_C5_cex :
    get_relationships entRelStorage 100 none none true true = []
    ∧ entRelStorage.relationships.map (fun r => r.source_id) = [100] :=
  ⟨rfl, rfl⟩

-- === Entity-event set query lemmas ===

theorem mem_foldl_inter (i : UUID) :
    ∀ (sets : List (List UUID)) (s : List UUID),
    (i ∈ sets.foldl (fun acc s2 => acc.filter (fun j => j ∈ s2)) s)
      ↔ (i ∈ s ∧ ∀ s2 ∈ sets, i ∈ s2) := by
  intro sets
  induction sets with
  | nil => simp
  | cons s2 rest ih =>
      intro s
      rw [List.foldl_cons, ih]
      simp [List.mem_filter, and_assoc]

/-- The event-id set get_entity_events computes for one entity: ids of
timeline events linked to the entity under some role. -/
theorem mem_entity_event_ids (st : Storage) (ent tid : UUID) (i : UUID) :
    i ∈ (get_entity_events st ent tid none none none).map (fun e => e.id) ↔
      ∃ e ∈ st.events, e.timeline_id = tid ∧ e.id = i
        ∧ ∃ ro, (i, ent, ro) ∈ st.links := by
  unfold get_entity_events
  dsimp only
  rw [pySortByTimestamp]
  rw [List.Perm.mem_iff ((List.perm_insertionSort eventLE _).map (fun e => e.id))]
  simp [get_event_entity_links_by_entity, get_events_by_timeline,
    List.mem_filter]
  constructor
  · rintro ⟨a, ⟨ha, ⟨x, hx⟩, htl⟩, rfl⟩
    exact ⟨a, ha, htl, rfl, x, hx⟩
  · rintro ⟨e, he, htl, rfl, ro, hro⟩
    exact ⟨e, ⟨he, ⟨ro, hro⟩, htl⟩, rfl⟩

/-- C6: with match_all true, get_events_with_entities returns exactly the
timeline events linked to every listed entity (set intersection of the
per-entity event-id sets); with match_all false, exactly those linked to
at least one (set union); an empty entity list with match_all gives the
empty result by convention; and both results are sorted ascending by
timestamp. -/
theorem get_events_with_entities_C6 (st : Storage) (tid : UUID) (ids : List UUID) :
    (∀ e, e ∈ get_events_with_entities st ids tid true none none ↔
      (e ∈ st.events ∧ e.timeline_id = tid ∧ ids ≠ []
        ∧ ∀ ent ∈ ids, ∃ ro, (e.id, ent, ro) ∈ st.links))
    ∧ (∀ e, e ∈ get_events_with_entities st ids tid false none none ↔
      (e ∈ st.events ∧ e.timeline_id = tid
        ∧ ∃ ent ∈ ids, ∃ ro, (e.id, ent, ro) ∈ st.links))
    ∧ get_events_with_entities st [] tid true none none = []
    ∧ (get_events_with_entities st ids tid true none none).Sorted eventLE
    ∧ (get_events_with_entities st ids tid false none none).Sorted eventLE := by
  refine ⟨?_, ?_, ?_, ?_, ?_⟩
  · intro e
    cases ids with
    | nil => simp [get_events_with_entities, pySortByTimestamp]
    | cons x rest =>
        unfold get_events_with_entities
        dsimp only
        rw [if_pos rfl]
        rw [pySortByTimestamp, List.Perm.mem_iff (List.perm_insertionSort eventLE _),
          List.mem_filter]
        simp only [get_events_by_timeline, List.mem_filter, decide_eq_true_eq,
          List.map_cons]
        rw [mem_foldl_inter]
        constructor
        · rintro ⟨⟨he, htl⟩, hx, hrest⟩
          refine ⟨he, htl, by simp, ?_⟩
          intro ent hent
          rcases List.mem_cons.mp hent with rfl | hent2
          · obtain ⟨e2, _, _, hid, ro, hro⟩ :=
              (mem_entity_event_ids st ent tid e.id).mp hx
            exact ⟨ro, hro⟩
          · obtain ⟨e2, _, _, hid, ro, hro⟩ :=
              (mem_entity_event_ids st ent tid e.id).mp
                (hrest _ (List.mem_map_of_mem _ hent2))
            exact ⟨ro, hro⟩
        · rintro ⟨he, htl, hne, hall⟩
          refine ⟨⟨he, htl⟩, ?_, ?_⟩
          · exact (mem_entity_event_ids st x tid e.id).mpr
              ⟨e, he, htl, rfl, hall x (List.mem_cons_self x rest)⟩
          · intro s2 hs2
            obtain ⟨ent, hent, rfl⟩ := List.mem_map.mp hs2
            exact (mem_entity_event_ids st ent tid e.id).mpr
              ⟨e, he, htl, rfl, hall ent (List.mem_cons_of_mem x hent)⟩
  · intro e
    unfold get_events_with_entities
    dsimp only
    rw [if_neg (by simp)]
    rw [pySortByTimestamp, List.Perm.mem_iff (List.perm_insertionSort eventLE _),
      List.mem_filter]
    simp only [get_events_by_timeline, List.mem_filter, decide_eq_true_eq,
      List.mem_flatten, List.mem_map]
    constructor
    · rintro ⟨⟨he, htl⟩, s2, ⟨ent, hent, rfl⟩, hid⟩
      obtain ⟨e2, _, _, _, ro, hro⟩ := (mem_entity_event_ids st ent tid e.id).mp hid
      exact ⟨he, htl, ent, hent, ro, hro⟩
    · rintro ⟨he, htl, ent, hent, ro, hro⟩
      refine ⟨⟨he, htl⟩, _, ⟨ent, hent, rfl⟩, ?_⟩
      exact (mem_entity_event_ids st ent tid e.id).mpr ⟨e, he, htl, rfl, ro, hro⟩
  · simp [get_events_with_entities, pySortByTimestamp]
  · unfold get_events_with_entities
    dsimp only
    rw [if_pos rfl]
    rw [pySortByTimestamp]
    exact List.sorted_insertionSort eventLE _
  · unfold get_events_with_entities
    dsimp only
    rw [if_neg (by simp)]
    rw [pySortByTimestamp]
    exact List.sorted_insertionSort eventLE _

/-- Witness for C6 at a concrete input: the intersection over an empty
entity list on the one-event storage is empty. -/
theorem get_events_with_entities_C6_witness :
    get_events_with_entities cexStorage [] 0 true none none = [] :=
  (get_events_with_entities_C6 cexStorage 0 []).2.2.1

-- === Compression lemmas ===

theorem compress_noTouch (before : Time) (minImp : ℚ) :
    ∀ (l : List Event) (y : Event), (∀ e ∈ l, y.id ≠ e.id) →
    l.foldl (fun y e => if compressible before minImp e ∧ y.id = e.id
      then { e with detail_level := e.detail_level - 1 } else y) y = y := by
  intro l
  induction l with
  | nil => intro y _; rfl
  | cons e rest ih =>
      intro y hy
      rw [List.foldl_cons, if_neg (fun h => hy e (by simp) h.2)]
      exact ih y (fun e2 he2 => hy e2 (by simp [he2]))

/-- The compression scan as one fold equation: the returned count is the
number of qualifying fetched events, the non-event tables are untouched,
and the event table is the original list with the per-event update fold
applied pointwise. -/
theorem compress_fold (before : Time) (minImp : ℚ) :
    ∀ (l : List Event) (s : Storage) (c : Nat),
    (l.foldl (fun acc event =>
        if compressible before minImp event then
          (update_event acc.1 { event with detail_level := event.detail_level - 1 },
           acc.2 + 1)
        else acc) (s, c)).2
      = c + (l.filter (fun e => compressible before minImp e)).length
    ∧ (l.foldl (fun acc event =>
        if compressible before minImp event then
          (update_event acc.1 { event with detail_level := event.detail_level - 1 },
           acc.2 + 1)
        else acc) (s, c)).1.timelines = s.timelines
    ∧ (l.foldl (fun acc event =>
        if compressible before minImp event then
          (update_event acc.1 { event with detail_level := event.detail_level - 1 },
           acc.2 + 1)
        else acc) (s, c)).1.events
      = s.events.map (fun x =>
          l.foldl (fun y e => if compressible before minImp e ∧ y.id = e.id
            then { e with detail_level := e.detail_level - 1 } else y) x) := by
  intro l
  induction l with
  | nil => intro s c; exact ⟨by simp, rfl, by simp⟩
  | cons e rest ih =>
      intro s c
      rw [List.foldl_cons]
      by_cases hq : compressible before minImp e
      · rw [if_pos hq]
        obtain ⟨ih1, ih2, ih3⟩ := ih (update_event s
          { e with detail_level := e.detail_level - 1 }) (c + 1)
        refine ⟨?_, ih2, ?_⟩
        · rw [ih1]
          simp [hq]
          ring
        · rw [ih3]
          rw [update_event]
          dsimp only
          rw [List.map_map]
          apply List.map_congr_left
          intro x _
          rw [Function.comp_apply, List.foldl_cons]
          congr 1
          by_cases hx : x.id = e.id <;> simp [hq, hx]
      · rw [if_neg hq]
        obtain ⟨ih1, ih2, ih3⟩ := ih s c
        refine ⟨?_, ih2, ?_⟩
        · rw [ih1]
          simp [hq]
        · rw [ih3]
          apply List.map_congr_left
          intro x _
          rw [List.foldl_cons, if_neg (fun h => hq h.1)]

/-- With distinct stored ids, the per-event update fold touches a given
stored event at most once (the event itself, if it qualifies). -/
theorem compress_gEval (before : Time) (minImp : ℚ) (evts : List Event)
    (hnd : (evts.map (fun e => e.id)).Nodup) (x : Event) (hx : x ∈ evts) :
    ∀ (l : List Event), (∀ e ∈ l, e ∈ evts) → (l.map (fun e => e.id)).Nodup →
    l.foldl (fun y e => if compressible before minImp e ∧ y.id = e.id
      then { e with detail_level := e.detail_level - 1 } else y) x
      = if x ∈ l ∧ compressible before minImp x
          then { x with detail_level := x.detail_level - 1 } else x := by
  have inj := List.inj_on_of_nodup_map hnd
  intro l
  induction l with
  | nil => intro _ _; simp
  | cons e rest ih =>
      intro hsub hndl
      have hein : e ∈ evts := hsub e (by simp)
      have hsubr : ∀ e2 ∈ rest, e2 ∈ evts :=
        fun e2 he2 => hsub e2 (List.mem_cons_of_mem e he2)
      have hndr : (rest.map (fun e2 => e2.id)).Nodup :=
        (List.nodup_cons.mp (by simpa using hndl)).2
      rw [List.foldl_cons]
      by_cases hid : x.id = e.id
      · have hex : e = x := inj hein hx hid.symm
        subst hex
        have hni : e.id ∉ rest.map (fun e2 => e2.id) :=
          (List.nodup_cons.mp (by simpa using hndl)).1
        by_cases hqx : compressible before minImp e
        · rw [if_pos ⟨hqx, rfl⟩]
          rw [compress_noTouch before minImp rest _ ?_]
          · rw [if_pos ⟨by simp, hqx⟩]
          · intro e2 he2 hcontra
            apply hni
            have he12 : e.id = e2.id := hcontra
            rw [he12]
            exact List.mem_map_of_mem _ he2
        · rw [if_neg (fun h => hqx h.1)]
          rw [ih hsubr hndr]
          simp [hqx]
      · rw [if_neg (fun h => hid h.2)]
        rw [ih hsubr hndr]
        have hxe : x ≠ e := fun h => hid (by rw [h])
        simp [List.mem_cons, hxe]

theorem compress_char (st : Storage) (tid : UUID) (before : Time) (minImp : ℚ)
    (hnd : (st.events.map (fun e => e.id)).Nodup) :
    (compress_events st tid before minImp).1.events
      = st.events.map (compressStep tid before minImp) := by
  unfold compress_events
  dsimp only
  rw [(compress_fold before minImp (get_events_by_timeline st tid) st 0).2.2]
  apply List.map_congr_left
  intro x hxmem
  rw [compress_gEval before minImp st.events hnd x hxmem
    (get_events_by_timeline st tid)
    (fun e he => List.mem_of_mem_filter he)
    (List.Nodup.sublist ((List.filter_sublist st.events).map (fun e => e.id)) hnd)]
  unfold compressStep
  by_cases htl : x.timeline_id = tid <;>
    by_cases hc : compressible before minImp x <;>
    simp [get_events_by_timeline, List.mem_filter, hxmem, htl, hc]

theorem compress_count (st : Storage) (tid : UUID) (before : Time) (minImp : ℚ) :
    (compress_events st tid before minImp).2
      = ((get_events_by_timeline st tid).filter
          (fun e => compressible before minImp e)).length := by
  unfold compress_events
  dsimp only
  rw [(compress_fold before minImp (get_events_by_timeline st tid) st 0).1]
  exact Nat.zero_add _

theorem compressStep_fields (tid : UUID) (before : Time) (minImp : ℚ) (x : Event) :
    (compressStep tid before minImp x).id = x.id
    ∧ (compressStep tid before minImp x).timeline_id = x.timeline_id
    ∧ (compressStep tid before minImp x).timestamp = x.timestamp
    ∧ (compressStep tid before minImp x).importance_score = x.importance_score
    ∧ (compressStep tid before minImp x).detail_level ≤ x.detail_level := by
  unfold compressStep
  split <;> simp

/-- After two compression runs, an event within the model detail range
can no longer qualify for compression on its timeline. -/
theorem compressStep_twice (tid : UUID) (before : Time) (minImp : ℚ)
    (x0 : Event) (h2 : x0.detail_level ≤ 2) :
    ¬ ((compressStep tid before minImp (compressStep tid before minImp
          x0)).timeline_id = tid
       ∧ compressible before minImp
          (compressStep tid before minImp (compressStep tid before minImp x0))) := by
  by_cases htl : x0.timeline_id = tid
  · by_cases hts : x0.timestamp < before
    · by_cases himp : x0.importance_score < minImp
      · rcases hdl : x0.detail_level with _ | _ | _ | n
        · simp [compressStep, compressible, htl, hts, himp, hdl]
        · simp [compressStep, compressible, htl, hts, himp, hdl]
        · simp [compressStep, compressible, htl, hts, himp, hdl]
        · rw [hdl] at h2; omega
      · simp [compressStep, compressible, htl, hts, himp]
    · simp [compressStep, compressible, htl, hts]
  · simp [compressStep, compressible, htl]

/-- C7: compress_events returns the number of timeline events with
timestamp before the cutoff, importance below the threshold, and positive
detail_level, leaving the timeline table unchanged (first conjunct); with
distinct stored ids the event table becomes the pointwise decrement of
exactly the qualifying events (second conjunct); and on a qualifying
event starting at detail_level 2 two runs decrement it to 1 then 0, after
which a third run counts nothing and changes nothing (third conjunct,
with stored detail levels within the model range). -/
theorem compress_events_C7 :
    (∀ (st : Storage) (tid : UUID) (before : Time) (minImp : ℚ),
      (compress_events st tid before minImp).2
        = ((get_events_by_timeline st tid).filter
            (fun e => compressible before minImp e)).length
      ∧ (compress_events st tid before minImp).1.timelines = st.timelines)
    ∧ (∀ (st : Storage) (tid : UUID) (before : Time) (minImp : ℚ),
        (st.events.map (fun e => e.id)).Nodup →
        (compress_events st tid before minImp).1.events
          = st.events.map (compressStep tid before minImp))
    ∧ (∀ (st : Storage) (tid : UUID) (before : Time) (minImp : ℚ) (e : Event),
        (st.events.map (fun e => e.id)).Nodup →
        (∀ x ∈ st.events, x.detail_level ≤ 2) →
        e ∈ st.events → e.timeline_id = tid → e.timestamp < before →
        e.importance_score < minImp → e.detail_level = 2 →
        { e with detail_level := 1 }
            ∈ (compress_events st tid before minImp).1.events
        ∧ { e with detail_level := 0 } ∈
            (compress_events (compress_events st tid before minImp).1 tid before
              minImp).1.events
        ∧ (compress_events (compress_events (compress_events st tid before
              minImp).1 tid before minImp).1 tid before minImp).2 = 0
        ∧ (compress_events (compress_events (compress_events st tid before
              minImp).1 tid before minImp).1 tid before minImp).1.events
          = (compress_events (compress_events st tid before minImp).1 tid before
              minImp).1.events) := by
  have hidcomp : ∀ (tid : UUID) (before : Time) (minImp : ℚ),
      ((fun e => e.id) ∘ compressStep tid before minImp) = fun (e : Event) => e.id :=
    fun tid before minImp =>
      funext fun x => (compressStep_fields tid before minImp x).1
  refine ⟨fun st tid before minImp =>
    ⟨compress_count st tid before minImp, ?_⟩, compress_char, ?_⟩
  · unfold compress_events
    dsimp only
    exact (compress_fold before minImp (get_events_by_timeline st tid) st 0).2.1
  · intro st tid before minImp e hnd hwf he htl hts himp hdl
    have h1 := compress_char st tid before minImp hnd
    have hids1 : ((compress_events st tid before minImp).1.events.map
        (fun e => e.id)).Nodup := by
      rw [h1, List.map_map, hidcomp]
      exact hnd
    have h2 := compress_char (compress_events st tid before minImp).1 tid before
      minImp hids1
    have hids2 : ((compress_events (compress_events st tid before minImp).1 tid
        before minImp).1.events.map (fun e => e.id)).Nodup := by
      rw [h2, List.map_map, hidcomp]
      exact hids1
    have h22 : (compress_events (compress_events st tid before minImp).1 tid
        before minImp).1.events
        = st.events.map
            (compressStep tid before minImp ∘ compressStep tid before minImp) := by
      rw [h2, h1, List.map_map]
    have hkey : ∀ x ∈ (compress_events (compress_events st tid before minImp).1
        tid before minImp).1.events,
        ¬ (x.timeline_id = tid ∧ compressible before minImp x) := by
      rw [h22]
      intro x hx
      obtain ⟨x0, hx0, rfl⟩ := List.mem_map.mp hx
      exact compressStep_twice tid before minImp x0 (hwf x0 hx0)
    refine ⟨?_, ?_, ?_, ?_⟩
    · rw [h1]
      have hstep : compressStep tid before minImp e
          = { e with detail_level := 1 } := by
        unfold compressStep
        rw [if_pos ⟨htl, hts, himp, by omega⟩]
        simp [hdl]
      exact hstep ▸ List.mem_map_of_mem _ he
    · rw [h2]
      have hmem1 : { e with detail_level := 1 }
          ∈ (compress_events st tid before minImp).1.events := by
        rw [h1]
        have hstep : compressStep tid before minImp e
            = { e with detail_level := 1 } := by
          unfold compressStep
          rw [if_pos ⟨htl, hts, himp, by omega⟩]
          simp [hdl]
        exact hstep ▸ List.mem_map_of_mem _ he
      have hstep2 : compressStep tid before minImp { e with detail_level := 1 }
          = { e with detail_level := 0 } := by
        unfold compressStep
        rw [if_pos ⟨htl, ⟨hts, himp, by simp⟩⟩]
        rfl
      exact hstep2 ▸ List.mem_map_of_mem _ hmem1
    · rw [compress_count]
      rw [List.length_eq_zero]
      rw [List.filter_eq_nil_iff]
      intro x hx
      have hx2 := List.mem_of_mem_filter hx
      have hxtl : x.timeline_id = tid := by
        simpa using List.of_mem_filter hx
      intro hcomp
      exact hkey x hx2 ⟨hxtl, by simpa using hcomp⟩
    · rw [compress_char _ tid before minImp hids2]
      conv_rhs => rw [← List.map_id (compress_events (compress_events st tid
        before minImp).1 tid before minImp).1.events]
      apply List.map_congr_left
      intro x hx
      unfold compressStep
      rw [if_neg (hkey x hx)]
      rfl

/-- Witness for C7 at a concrete input: the single qualifying event at
detail_level 2, cutoff 5, threshold 1. -/
theorem compress_events_C7_witness :
    ((compress_events compStorage 0 5 1).1.events
      = compStorage.events.map (compressStep 0 5 1))
    ∧ { compEvent with detail_level := 1 }
        ∈ (compress_events compStorage 0 5 1).1.events
    ∧ { compEvent with detail_level := 0 } ∈
        (compress_events (compress_events compStorage 0 5 1).1 0 5 1).1.events
    ∧ (compress_events (compress_events (compress_events compStorage 0 5 1).1
        0 5 1).1 0 5 1).2 = 0
    ∧ (compress_events (compress_events (compress_events compStorage 0 5 1).1
        0 5 1).1 0 5 1).1.events
      = (compress_events (compress_events compStorage 0 5 1).1 0 5 1).1.events :=
  ⟨compress_events_C7.2.1 compStorage 0 5 1 (by decide),
   compress_events_C7.2.2 compStorage 0 5 1 compEvent (by decide) (by decide)
     (by decide) (by decide) (by decide) (by decide) (by decide)⟩

-- === Validation lemmas ===

theorem mkEvent_end_error (id tid : UUID) (ts eT : Time) (ty : EventType)
    (desc : String) (imp : ℚ) (dl : Nat) (delta : StateDelta) (h : eT ≤ ts) :
    ∃ msg, mkEvent id tid ts (some eT) ty desc imp dl delta = .error msg := by
  unfold mkEvent
  dsimp only
  split_ifs with h1 h2 h3 <;> exact ⟨_, rfl⟩

/-- C8: the pydantic constructors reject invariant violations before any
storage call: an event with end_timestamp at or before timestamp, an
event importance score outside [0, 1], an empty event description, a
relationship with both bounds set and valid_until at or before
valid_from, a relationship strength outside [0, 1], and an empty timeline
name, each fail to construct; and add_event with end_timestamp at or
before timestamp returns the error with the storage state completely
unchanged. -/
theorem validation_C8 :
    (∀ (id tid : UUID) (ts eT : Time) (ty : EventType) (desc : String)
        (imp : ℚ) (dl : Nat) (delta : StateDelta) (ev : Event), eT ≤ ts →
      mkEvent id tid ts (some eT) ty desc imp dl delta ≠ .ok ev)
    ∧ (∀ (id tid : UUID) (ts : Time) (endT : Option Time) (ty : EventType)
        (desc : String) (imp : ℚ) (dl : Nat) (delta : StateDelta) (ev : Event),
        imp < 0 ∨ 1 < imp →
      mkEvent id tid ts endT ty desc imp dl delta ≠ .ok ev)
    ∧ (∀ (id tid : UUID) (ts : Time) (endT : Option Time) (ty : EventType)
        (imp : ℚ) (dl : Nat) (delta : StateDelta) (ev : Event),
      mkEvent id tid ts endT ty "" imp dl delta ≠ .ok ev)
    ∧ (∀ (id sid : UUID) (sty : SourceType) (tgt : UUID) (tty : SourceType)
        (rt : RelationType) (s : ℚ) (f u : Time) (r : Relationship), u ≤ f →
      mkRelationship id sid sty tgt tty rt s (some f) (some u) ≠ .ok r)
    ∧ (∀ (id sid : UUID) (sty : SourceType) (tgt : UUID) (tty : SourceType)
        (rt : RelationType) (s : ℚ) (f u : Option Time) (r : Relationship),
        s < 0 ∨ 1 < s →
      mkRelationship id sid sty tgt tty rt s f u ≠ .ok r)
    ∧ (∀ (id pid uid : UUID) (desc : Option String) (par : Option UUID)
        (status : TimelineStatus) (tl : Timeline),
      mkTimeline id pid uid "" desc par status ≠ .ok tl)
    ∧ (∀ (st : Storage) (tid : UUID) (ts : Time) (ty : EventType) (desc : String)
        (delta : Option StateDelta) (imp : ℚ) (eT : Time), eT ≤ ts →
      (add_event st tid ts ty desc delta imp (some eT)).1 = st
      ∧ ∀ ev, (add_event st tid ts ty desc delta imp (some eT)).2 ≠ .ok ev) := by
  refine ⟨?_, ?_, ?_, ?_, ?_, ?_, ?_⟩
  · intro id tid ts eT ty desc imp dl delta ev h
    obtain ⟨msg, hmsg⟩ := mkEvent_end_error id tid ts eT ty desc imp dl delta h
    simp [hmsg]
  · intro id tid ts endT ty desc imp dl delta ev h
    unfold mkEvent
    split_ifs <;> simp_all
  · intro id tid ts endT ty imp dl delta ev
    unfold mkEvent
    rw [if_pos (by simp)]
    simp
  · intro id sid sty tgt tty rt s f u r h
    unfold mkRelationship
    split_ifs with h1 <;> [simp; skip]
    dsimp only
    rw [if_pos h]
    simp
  · intro id sid sty tgt tty rt s f u r h
    unfold mkRelationship
    rw [if_pos h]
    simp
  · intro id pid uid desc par status tl
    unfold mkTimeline
    rw [if_pos (by simp)]
    simp
  · intro st tid ts ty desc delta imp eT h
    obtain ⟨msg, hmsg⟩ := mkEvent_end_error st.nextId tid ts eT ty desc imp 1
      (delta.getD {}) h
    unfold add_event
    rw [hmsg]
    exact ⟨rfl, by simp⟩

/-- Witness for C8 at concrete inputs: end timestamp 3 at or before start
5, importance 2 out of range, strength 2 out of range, valid_until 1 at
or before valid_from 4, and add_event on the one-event storage. -/
theorem validation_C8_witness :
    mkEvent 0 0 5 (some 3) .observation "d" 1 1 {} ≠ .ok cexEvent
    ∧ mkEvent 0 0 5 none .observation "d" 2 1 {} ≠ .ok cexEvent
    ∧ mkEvent 0 0 5 none .observation "" 1 1 {} ≠ .ok cexEvent
    ∧ mkRelationship 0 1 .event 2 .event .causal 1 (some 4) (some 1)
        ≠ .ok (causalRel 0 1 2)
    ∧ mkRelationship 0 1 .event 2 .event .causal 2 none none
        ≠ .ok (causalRel 0 1 2)
    ∧ mkTimeline 0 1 2 "" none none .canonical
        ≠ .ok ⟨0, 1, 2, "x", none, none, .canonical⟩
    ∧ (add_event cexStorage 0 5 .observation "d" none 1 (some 3)).1 = cexStorage
    ∧ ∀ ev, (add_event cexStorage 0 5 .observation "d" none 1 (some 3)).2
        ≠ .ok ev :=
  ⟨validation_C8.1 0 0 5 3 .observation "d" 1 1 {} cexEvent (by decide),
   validation_C8.2.1 0 0 5 none .observation "d" 2 1 {} cexEvent
     (by norm_num),
   validation_C8.2.2.1 0 0 5 none .observation 1 1 {} cexEvent,
   validation_C8.2.2.2.1 0 1 .event 2 .event .causal 1 4 1 (causalRel 0 1 2)
     (by decide),
   validation_C8.2.2.2.2.1 0 1 .event 2 .event .causal 2 none none
     (causalRel 0 1 2) (by norm_num),
   validation_C8.2.2.2.2.2.1 0 1 2 none none .canonical
     ⟨0, 1, 2, "x", none, none, .canonical⟩,
   (validation_C8.2.2.2.2.2.2 cexStorage 0 5 .observation "d" none 1 3
     (by decide)).1,
   (validation_C8.2.2.2.2.2.2 cexStorage 0 5 .observation "d" none 1 3
     (by decide)).2⟩

/-- C9: link_event_entity appends the (event, entity, role) triple with
the role lowercased (the sqlite adapter normalizes at insertion), leaving
the event table unchanged; consequently a stored event of the timeline
with the linked event id is found by a get_entity_events lookup filtering
on the lowercased role. -/
theorem link_event_entity_C9 :
    (∀ (st : Storage) (eid entid : UUID) (role : String),
      (link_event_entity st eid entid role).links
        = st.links ++ [(eid, entid, pyLower role)]
      ∧ (link_event_entity st eid entid role).events = st.events)
    ∧ (∀ (st : Storage) (eid entid tid : UUID) (role : String) (ev : Event),
        ev ∈ st.events → ev.timeline_id = tid → ev.id = eid →
        ev ∈ get_entity_events (link_event_entity st eid entid role) entid tid
          none none (some (pyLower role))) := by
  refine ⟨fun st eid entid role => ⟨rfl, rfl⟩, ?_⟩
  intro st eid entid tid role ev hev htl hid
  unfold get_entity_events
  dsimp only
  rw [pySortByTimestamp]
  rw [List.Perm.mem_iff (List.perm_insertionSort eventLE _)]
  rw [List.mem_filter]
  constructor
  · simp [link_event_entity, insert_event_entity_link, get_events_by_timeline,
      List.mem_filter, hev, htl]
  · have hlink : (eid, entid, pyLower role)
        ∈ (link_event_entity st eid entid role).links := by
      simp [link_event_entity, insert_event_entity_link]
    by_cases hr : pyLower role = ""
    · rw [if_neg (by simp [hr])]
      simp only [get_event_entity_links_by_entity, List.mem_map, List.mem_filter,
        decide_eq_true_eq]
      exact ⟨(eid, pyLower role),
        ⟨(eid, entid, pyLower role), ⟨hlink, rfl⟩, rfl⟩, hid.symm⟩
    · rw [if_pos (by simp [hr])]
      simp only [get_event_entity_links_by_entity, List.mem_map, List.mem_filter,
        decide_eq_true_eq]
      exact ⟨(eid, pyLower role),
        ⟨⟨(eid, entid, pyLower role), ⟨hlink, rfl⟩, rfl⟩, rfl⟩, hid.symm⟩

/-- Witness for C9 at a concrete input: linking role Actor stores actor,
and the lookup filtered on actor finds the event. -/
theorem link_event_entity_C9_witness :
    (link_event_entity cexStorage 0 7 "Actor").links
      = cexStorage.links ++ [(0, 7, pyLower "Actor")]
    ∧ pyLower "Actor" = "actor"
    ∧ cexEvent ∈ get_entity_events (link_event_entity cexStorage 0 7 "Actor")
        7 0 none none (some (pyLower "Actor")) :=
  ⟨(link_event_entity_C9.1 cexStorage 0 7 "Actor").1, by decide,
   link_event_entity_C9.2 cexStorage 0 7 0 "Actor" cexEvent (by decide)
     (by decide) (by decide)⟩

-- === Causal traversal boundedness lemmas ===

theorem filter_notMem_mono (v v' : List UUID) (hsub : v ⊆ v') :
    ∀ (l : List UUID),
    (l.filter (fun i => i ∉ v')).length ≤ (l.filter (fun i => i ∉ v)).length := by
  intro l
  induction l with
  | nil => simp
  | cons a rest ih =>
      by_cases h1 : a ∈ v'
      · rw [List.filter_cons_of_neg (by simpa using h1)]
        by_cases h3 : a ∈ v
        · rw [List.filter_cons_of_neg (by simpa using h3)]
          exact ih
        · rw [List.filter_cons_of_pos (by simpa using h3)]
          exact le_trans ih (Nat.le_succ _)
      · have h3 : a ∉ v := fun hv => h1 (hsub hv)
        rw [List.filter_cons_of_pos (by simpa using h1),
            List.filter_cons_of_pos (by simpa using h3)]
        exact Nat.succ_le_succ ih

theorem filter_notMem_strict (v : List UUID) (cid : UUID) (hnv : cid ∉ v) :
    ∀ (l : List UUID), cid ∈ l →
    (l.filter (fun i => i ∉ (cid :: v))).length
      < (l.filter (fun i => i ∉ v)).length := by
  intro l
  induction l with
  | nil => simp
  | cons a rest ih =>
      intro hmem
      by_cases ha : a = cid
      · subst ha
        rw [List.filter_cons_of_neg (by simp),
            List.filter_cons_of_pos (by simpa using hnv)]
        exact Nat.lt_succ_of_le (filter_notMem_mono v (a :: v)
          (fun x hx => List.mem_cons_of_mem _ hx) rest)
      · have hrest : cid ∈ rest := by
          rcases List.mem_cons.mp hmem with h | h
          · exact absurd h.symm ha
          · exact h
        by_cases hav : a ∈ v
        · rw [List.filter_cons_of_neg
              (by simp [List.mem_cons]; exact fun _ => hav),
            List.filter_cons_of_neg (by simpa using hav)]
          exact ih hrest
        · have hav2 : a ∉ cid :: v := by simp [ha, hav]
          rw [List.filter_cons_of_pos (by simpa using hav2),
            List.filter_cons_of_pos (by simpa using hav)]
          exact Nat.succ_lt_succ (ih hrest)

theorem remaining_mono (st : Storage) (v v' : List UUID) (hsub : v ⊆ v') :
    remaining st v' ≤ remaining st v :=
  filter_notMem_mono v v' hsub _

theorem remaining_strict (st : Storage) (v : List UUID) (cid : UUID)
    (hnv : cid ∉ v) (hmem : cid ∈ (st.events.map (fun e => e.id)).dedup) :
    remaining st (cid :: v) < remaining st v :=
  filter_notMem_strict v cid hnv _ hmem


theorem bfs_visited_mono (st : Storage) (fwd : Bool) :
    ∀ (g : Nat) (cid : UUID) (path : List Event)
      (acc : List UUID × List CausalPath),
    acc.1 ⊆ (bfsGo st fwd g cid path acc).1 := by
  intro g
  induction g with
  | zero => intro cid path acc; exact fun x hx => hx
  | succ g ih =>
      intro cid path acc
      rw [bfsGo]
      by_cases hv : cid ∈ acc.1
      · rw [if_pos hv]
        exact fun x hx => hx
      · rw [if_neg hv]
        dsimp only
        have hsub1 : acc.1 ⊆ cid :: acc.1 := fun x hx => List.mem_cons_of_mem _ hx
        rcases hev : get_event_by_id st cid with _ | ev
        · exact hsub1
        · dsimp only
          have hfold : ∀ (rels : List Relationship)
              (a : List UUID × List CausalPath),
              a.1 ⊆ (rels.foldl (fun a r =>
                bfsGo st fwd g (relNext fwd r)
                  (path ++ [ev]) a) a).1 := by
            intro rels
            induction rels with
            | nil => intro a; exact fun x hx => hx
            | cons r rest ihr =>
                intro a
                rw [List.foldl_cons]
                exact fun x hx => ihr _ (ih (relNext fwd r) (path ++ [ev]) a hx)
          split <;> split <;>
            first
            | exact hsub1
            | exact fun x hx => hfold _ _ (hsub1 hx)

theorem mem_dedup_of_lookup (st : Storage) (cid : UUID) (ev : Event)
    (hev : get_event_by_id st cid = some ev) :
    cid ∈ (st.events.map (fun e => e.id)).dedup := by
  rw [List.mem_dedup]
  have hmem := List.mem_of_find?_eq_some hev
  have hid : ev.id = cid := by
    have := List.find?_some hev
    simpa using this
  rw [← hid]
  exact List.mem_map_of_mem _ hmem


theorem bfs_gas_irrel (st : Storage) (fwd : Bool) :
    ∀ (g : Nat) (cid : UUID) (path : List Event) (visited : List UUID)
      (paths : List CausalPath), remaining st visited < g →
    bfsGo st fwd g cid path (visited, paths)
      = bfsGo st fwd (remaining st visited + 1) cid path (visited, paths) := by
  intro g
  induction g using Nat.strong_induction_on with
  | _ g IH =>
    match g with
    | 0 => intro cid path visited paths hlt; exact absurd hlt (Nat.not_lt_zero _)
    | g + 1 =>
      intro cid path visited paths hlt
      by_cases heq : remaining st visited = g
      · rw [heq]
      · have hlt2 : remaining st visited < g :=
          lt_of_le_of_ne (Nat.lt_succ_iff.mp hlt) heq
        rw [bfsGo, bfsGo]
        dsimp only
        by_cases hv : cid ∈ visited
        · rw [if_pos hv, if_pos hv]
        · rw [if_neg hv, if_neg hv]
          rcases hev : get_event_by_id st cid with _ | ev
          · simp only [hev]
          · simp only [hev]
            have hmem := mem_dedup_of_lookup st cid ev hev
            have hstrict : remaining st (cid :: visited) < remaining st visited :=
              remaining_strict st visited cid hv hmem
            have hfold : ∀ (rels : List Relationship)
                (a : List UUID × List CausalPath), (cid :: visited) ⊆ a.1 →
                rels.foldl (fun a r => bfsGo st fwd g (relNext fwd r)
                  (path ++ [ev]) a) a
                  = rels.foldl (fun a r => bfsGo st fwd (remaining st visited)
                      (relNext fwd r) (path ++ [ev]) a) a := by
              intro rels
              induction rels with
              | nil => intro a _; rfl
              | cons r rest ihr =>
                  intro a hsub
                  rw [List.foldl_cons, List.foldl_cons]
                  have hra : remaining st a.1 ≤ remaining st (cid :: visited) :=
                    remaining_mono st _ _ hsub
                  have hra2 : remaining st a.1 < remaining st visited :=
                    lt_of_le_of_lt hra hstrict
                  have e1 : bfsGo st fwd g (relNext fwd r) (path ++ [ev]) a
                      = bfsGo st fwd (remaining st a.1 + 1) (relNext fwd r)
                          (path ++ [ev]) a :=
                    IH g (Nat.lt_succ_self g) (relNext fwd r)
                      (path ++ [ev]) a.1 a.2 (lt_trans hra2 hlt2)
                  have e2 : bfsGo st fwd (remaining st visited) (relNext fwd r)
                        (path ++ [ev]) a
                      = bfsGo st fwd (remaining st a.1 + 1) (relNext fwd r)
                          (path ++ [ev]) a :=
                    IH (remaining st visited)
                      (lt_trans hlt2 (Nat.lt_succ_self g)) (relNext fwd r)
                      (path ++ [ev]) a.1 a.2 hra2
                  rw [e1, e2]
                  exact ihr _ (List.Subset.trans hsub
                    (bfs_visited_mono st fwd (remaining st a.1 + 1)
                      (relNext fwd r) (path ++ [ev]) a))
            by_cases hie : ((if fwd then get_relationships_by_source st cid
                  SourceType.event
                else get_relationships_by_target st cid SourceType.event).filter
                  (fun r => r.relation_type = RelationType.causal)).isEmpty = true
            · rw [if_pos hie, if_pos hie]
            · rw [if_neg hie, if_neg hie]
              exact hfold _ (cid :: visited, paths) (fun x hx => hx)


theorem bfs_path_bound (st : Storage) (fwd : Bool) :
    ∀ (g : Nat) (cid : UUID) (path : List Event)
      (acc : List UUID × List CausalPath),
    ∀ p ∈ (bfsGo st fwd g cid path acc).2,
      p ∈ acc.2 ∨ p.events.length ≤ path.length + g := by
  intro g
  induction g with
  | zero => intro cid path acc p hp; exact Or.inl hp
  | succ g ih =>
      intro cid path acc p hp
      rw [bfsGo] at hp
      by_cases hv : cid ∈ acc.1
      · rw [if_pos hv] at hp
        exact Or.inl hp
      · rw [if_neg hv] at hp
        dsimp only at hp
        rcases hev : get_event_by_id st cid with _ | ev
        · simp only [hev] at hp
          exact Or.inl hp
        · simp only [hev] at hp
          by_cases hie : ((if fwd then get_relationships_by_source st cid
                SourceType.event
              else get_relationships_by_target st cid SourceType.event).filter
                (fun r => r.relation_type = RelationType.causal)).isEmpty = true
          · rw [if_pos hie] at hp
            dsimp only at hp
            rcases List.mem_append.mp hp with h | h
            · exact Or.inl h
            · right
              have hpe : p = { events := path ++ [ev] } := by simpa using h
              rw [hpe]
              simp
          · rw [if_neg hie] at hp
            have hfold : ∀ (rels : List Relationship)
                (a : List UUID × List CausalPath),
                p ∈ (rels.foldl (fun a r => bfsGo st fwd g (relNext fwd r)
                  (path ++ [ev]) a) a).2 →
                p ∈ a.2 ∨ p.events.length ≤ (path ++ [ev]).length + g := by
              intro rels
              induction rels with
              | nil => intro a hpa; exact Or.inl hpa
              | cons r rest ihr =>
                  intro a hpa
                  rw [List.foldl_cons] at hpa
                  rcases ihr _ hpa with h | h
                  · exact ih (relNext fwd r) (path ++ [ev]) a p h
                  · exact Or.inr h
            rcases hfold _ (cid :: acc.1, acc.2) hp with h | h
            · exact Or.inl h
            · right
              simp only [List.length_append, List.length_singleton] at h
              omega

/-- C10: the causal traversal terminates with a finite path list on every
finite storage state, cyclic or diamond-shaped graphs included: each
recursive step either stops (depth past max_depth, id already visited,
event missing) or inserts a previously unseen stored event id into the
single global visited set. First conjunct: any gas beyond the number of
distinct stored event ids plus one computes the same traversal, so the
recursion depth is bounded by the stored events independently of
max_depth (the gas of the embedding is max_depth + 1 - depth, so the
depth check itself is the structural bound). Second conjunct: every
returned path carries at most max_depth + 1 events. -/
theorem trace_causality_C10 (st : Storage) (maxDepth : Nat) (forward : Bool)
    (event_id : UUID) (gas : Nat) (hgas : remaining st [] < gas) :
    bfsGo st forward gas event_id [] ([], [])
      = bfsGo st forward (remaining st [] + 1) event_id [] ([], [])
    ∧ ∀ p ∈ trace_causality st event_id maxDepth forward,
        p.events.length ≤ maxDepth + 1 := by
  constructor
  · exact bfs_gas_irrel st forward gas event_id [] [] [] hgas
  · intro p hp
    rcases bfs_path_bound st forward (maxDepth + 1) event_id [] ([], []) p hp
      with h | h
    · exact absurd h (List.not_mem_nil p)
    · simpa using h

/-- Witness for C10 at a concrete input: the three-event chain storage
(three distinct ids), gas 5, max_depth 2. -/
theorem trace_causality_C10_witness :
    bfsGo (chainStorage 1 2 3) true 5 1 [] ([], [])
      = bfsGo (chainStorage 1 2 3) true
          (remaining (chainStorage 1 2 3) [] + 1) 1 [] ([], [])
    ∧ ∀ p ∈ trace_causality (chainStorage 1 2 3) 1 2 true,
        p.events.length ≤ 2 + 1 :=
  trace_causality_C10 (chainStorage 1 2 3) 2 true 1 5 (by decide)

end Timelines
